import Mathlib

/-!
Verification development for the `3D-tools` forest point-cloud pipeline.

The Python sources are embedded shallowly:

* Python `dict`s (insertion-ordered) become association lists with
  `dGet` / `dSet` (lookup, and in-place overwrite or append).
* Floating point numbers used for coordinates, heights and thresholds
  become `ℚ` for the grid code (`forestutils`), where every operation
  performed is exact field arithmetic and comparison, and `ℝ` for the
  transcendental geodetic code (`utm_convert`).
* Code that can raise (`KeyError`, `ZeroDivisionError`, `struct.error`,
  `ValueError`, recursion limits) returns `Option`, with `none` marking
  the raise.

Where the repository carries two generations of a module
(`forestutils.py` at the top level and the packaged `src/forestutils.py`),
the definition comments name the file a definition was read from.
-/

namespace ForestUtils

/-- Grid cell keys: the integer `(x, y)` pairs produced by `coords`. -/
abbrev Key := Int × Int

/-- Python `dict.get`: lookup in an insertion-ordered association list. -/
def dGet {κ α : Type} [DecidableEq κ] (d : List (κ × α)) (k : κ) : Option α :=
  match d with
  | [] => none
  | (k', v) :: rest => if k' = k then some v else dGet rest k

/-- Python `dict` item assignment `d[k] = v`: overwrite in place when the key
exists (keeping its position), append otherwise. -/
def dSet {κ α : Type} [DecidableEq κ] (d : List (κ × α)) (k : κ) (v : α) :
    List (κ × α) :=
  match d with
  | [] => [(k, v)]
  | (k', v') :: rest =>
      if k' = k then (k, v) :: rest else (k', v') :: dSet rest k v

/-- The command-line parameters read (as a global) throughout
`forestutils.py` / `src/forestutils.py`: `--cellsize`, `--grounddepth`,
`--slicedepth`, `--joinedcells`, `--utmzone`, `--north`. -/
structure Args where
  cellsize : ℚ
  grounddepth : ℚ
  slicedepth : ℚ
  joinedcells : ℚ
  utmzone : Int
  north : Bool
deriving DecidableEq, Repr

/-- A point of the cloud: `(x, y, z)` position plus the named colour
channels (`src/forestutils.py` treats every vertex attribute not named
`x`, `y` or `z` as a colour channel). -/
structure Pt where
  x : ℚ
  y : ℚ
  z : ℚ
  channels : List (String × ℚ)
deriving DecidableEq, Repr

/-- Function `coords(pos)`: the cell key `(⌊x / cellsize⌋, ⌊y / cellsize⌋)`. -/
def coords (a : Args) (px py : ℚ) : Key :=
  (Int.floor (px / a.cellsize), Int.floor (py / a.cellsize))

/-- Function `neighbors(key)` from `src/forestutils.py`: the 8 adjacent keys in the
order generated by `for a in (-1, 0, 1) for b in (-1, 0, 1) if a or b`. -/
def neighbors (k : Key) : List Key :=
  [(k.1 - 1, k.2 - 1), (k.1 - 1, k.2), (k.1 - 1, k.2 + 1),
   (k.1, k.2 - 1), (k.1, k.2 + 1),
   (k.1 + 1, k.2 - 1), (k.1 + 1, k.2), (k.1 + 1, k.2 + 1)]

/-- The mutable per-cell maps owned by `MapObj` (`src/forestutils.py`):
`density`, `canopy`, `ground`, `filtered_density` and `colours`. -/
structure MapState where
  density : List (Key × Nat)
  canopy : List (Key × ℚ)
  ground : List (Key × ℚ)
  filtered_density : List (Key × Nat)
  colours : List (Key × List (String × ℚ))
deriving DecidableEq, Repr

/-- The empty `MapObj` state set up in `MapObj.__init__`. -/
def MapState.empty : MapState := ⟨[], [], [], [], []⟩

/-- One iteration of the read loop in `MapObj.update_spatial`
(`src/forestutils.py` lines 161-180): first visit seeds
`density = filtered_density = 1` and `canopy = ground = z`; later visits
increment `density` and extend `ground` (min) or, via `elif`, `canopy`
(max).  `none` models the (unreachable from an empty start) `KeyError`
when `density` holds a key `ground`/`canopy` do not. -/
def update_spatial_step (a : Args) (s : MapState) (p : Pt) : Option MapState :=
  match dGet s.density (coords a p.x p.y) with
  | none =>
      some { s with
        density := dSet s.density (coords a p.x p.y) 1,
        canopy := dSet s.canopy (coords a p.x p.y) p.z,
        ground := dSet s.ground (coords a p.x p.y) p.z,
        filtered_density := dSet s.filtered_density (coords a p.x p.y) 1 }
  | some d =>
      match dGet s.ground (coords a p.x p.y), dGet s.canopy (coords a p.x p.y) with
      | some g, some c =>
          some (if g > p.z then
                  { s with density := dSet s.density (coords a p.x p.y) (d + 1),
                           ground := dSet s.ground (coords a p.x p.y) p.z }
                else if c < p.z then
                  { s with density := dSet s.density (coords a p.x p.y) (d + 1),
                           canopy := dSet s.canopy (coords a p.x p.y) p.z }
                else { s with density := dSet s.density (coords a p.x p.y) (d + 1) })
      | _, _ => none

/-- The whole spatial ingestion loop of `MapObj.update_spatial`, before
ground smoothing and component labelling run. -/
def update_spatial_scan (a : Args) (ps : List Pt) (s : MapState) :
    Option MapState :=
  ps.foldlM (fun s p => update_spatial_step a s p) s

/-- Method `MapObj.is_ground`: `point[2] - self.ground[coords(point)] < grounddepth`;
`none` is the `KeyError` on a cell the grid never saw. -/
def is_ground (a : Args) (s : MapState) (p : Pt) : Option Bool :=
  (dGet s.ground (coords a p.x p.y)).map
    (fun g => decide (p.z - g < a.grounddepth))

/-- Method `MapObj.is_lowest`: `point[2] == self.ground[coords(point)]`. -/
def is_lowest (a : Args) (s : MapState) (p : Pt) : Option Bool :=
  (dGet s.ground (coords a p.x p.y)).map (fun g => decide (p.z = g))

/-- The per-candidate test of `detect_issues` (`src/forestutils.py` lines
91-105; identically `MapObj.__problematic` in the legacy `forestutils.py`):
`adjacent` is the Python *set* `{ground.get(n) for n in neighbors(k)}` with
`None` discarded — a set of distinct ground *values* (here: `dedup` of the
lookups); skip unless it has at least 6 members, then flag the cell when at
least 3 members differ from the cell's own ground by more than
`2 * cellsize`.  `none` is the `KeyError` on `ground_dict[k]` for a
candidate outside the ground map. -/
def problematic_flag (a : Args) (ground : List (Key × ℚ)) (k : Key) :
    Option Bool :=
  let adjacent := ((neighbors k).filterMap (fun n => dGet ground n)).dedup
  if adjacent.length < 6 then some false
  else
    (dGet ground k).map (fun h =>
      decide (3 ≤ (adjacent.filter (fun n => |h - n| > 2 * a.cellsize)).length))

/-- Function `detect_issues(ground_dict, prior)`: the set of flagged candidates,
kept in candidate order. -/
def detect_issues (a : Args) (ground : List (Key × ℚ)) (prior : List Key) :
    Option (List Key) :=
  prior.foldlM
    (fun acc k =>
      (problematic_flag a ground k).map (fun b => if b then acc ++ [k] else acc))
    []

/-- The claim's reading of the problematic-cell test, following the spec's
words: at least 6 of the 8 grid *neighbors populated*, and at least 3
*neighbors'* ground values differing from the cell's own ground by more
than `2 * cellsize`.  Kept only to compare with `problematic_flag`. -/
def claimed_problematic (a : Args) (ground : List (Key × ℚ)) (k : Key) :
    Option Bool :=
  let populated := (neighbors k).filterMap (fun n => dGet ground n)
  if populated.length < 6 then some false
  else
    (dGet ground k).map (fun h =>
      decide (3 ≤ (populated.filter (fun n => |h - n| > 2 * a.cellsize)).length))

/-- The body of one pass of `MapObj.__smooth_ground` (legacy
`forestutils.py` lines 119-126): for each problematic cell, collect the
distinct ground values of its non-problematic neighbours and, when any
exist, overwrite the cell's ground with their minimum plus
`2 * cellsize`.  The ground map is mutated as the pass runs, so later
cells of the pass see earlier replacements. -/
def smooth_pass (a : Args) (problematic : List Key)
    (ground : List (Key × ℚ)) : List (Key × ℚ) :=
  problematic.foldl
    (fun g key =>
      let adjacent :=
        (((neighbors key).filter (fun n => decide (n ∉ problematic))).filterMap
          (fun n => dGet g n)).dedup
      match adjacent.min? with
      | none => g
      | some m => dSet g key (m + 2 * a.cellsize))
    ground

/-- The `for _ in range(10)` loop of `MapObj.__smooth_ground` (legacy
`forestutils.py` lines 119-130), with the remaining iteration count as
fuel: run a pass over the current problematic set, recompute the
problematic set restricted to it, and `break` when the recomputed set is
more than 0.9 of the previous one's size.  `prev = 0` makes
`len(problematic) / prev` raise `ZeroDivisionError` (`none`). -/
def smooth_ground_loop (a : Args) (ground : List (Key × ℚ))
    (problematic : List Key) : Nat → Option (List (Key × ℚ))
  | 0 => some ground
  | fuel + 1 =>
      let g' := smooth_pass a problematic ground
      let prev := problematic.length
      match detect_issues a g' problematic with
      | none => none
      | some probs' =>
          if prev = 0 then none
          else if ((probs'.length : ℚ) / (prev : ℚ)) > 9 / 10 then some g'
          else smooth_ground_loop a g' probs' fuel

/-- Method `MapObj.__smooth_ground` (legacy `forestutils.py` lines 115-130): seed
the problematic set from every ground key, then loop at most 10 times. -/
def smooth_ground (a : Args) (ground : List (Key × ℚ)) :
    Option (List (Key × ℚ)) :=
  match detect_issues a ground (ground.map (·.1)) with
  | none => none
  | some probs => smooth_ground_loop a ground probs 10

mutual

/-- Function `expand(old_key, com)` from `connected_components`
(`src/forestutils.py` lines 69-81; the same function is nested in the
legacy `MapObj._tree_components`): depth-first label union.  `fuel`
models the Python recursion limit; exhausting it is the `RuntimeError`
caught by the caller, reported in the `Bool` (`false` = raised); the
mutations made before the raise are kept. -/
def expand (fuel : Nat) (old : Key) (com : List (Key × Nat)) :
    List (Key × Nat) × Bool :=
  match fuel with
  | 0 => (com, false)
  | fuel' + 1 => expandGo fuel' old (neighbors old) com
termination_by (fuel, 0)

/-- The `for key in neighbors(old_key)` loop inside `expand`: *return*
(not continue) on the first neighbour absent from `com`; adopt a smaller
neighbour label for `old`; push a smaller label onto a larger neighbour
and recurse into it. -/
def expandGo (fuel : Nat) (old : Key) (ns : List Key)
    (com : List (Key × Nat)) : List (Key × Nat) × Bool :=
  match ns with
  | [] => (com, true)
  | n :: rest =>
      match dGet com n with
      | none => (com, true)
      | some cn =>
          match dGet com old with
          | none => (com, false)
          | some co =>
              if cn = co then expandGo fuel old rest com
              else if cn < co then expandGo fuel old rest (dSet com old cn)
              else
                match expand fuel n (dSet com n co) with
                | (com', true) => expandGo fuel old rest com'
                | (com', false) => (com', false)
termination_by (fuel, ns.length + 1)

end

/-- The driver loop of `connected_components` (`src/forestutils.py` lines
83-88): `expand` each key of a snapshot of `com`, swallowing the
recursion-limit `RuntimeError` (`try ... except RuntimeError: continue`). -/
def connected_components (fuel : Nat) (com : List (Key × Nat)) :
    List (Key × Nat) :=
  (com.map (·.1)).foldl (fun c k => (expand fuel k c).1) com

/-- The coarse-cell key of a fine cell,
`(⌊x / joinedcells⌋, ⌊y / joinedcells⌋)` (`src/forestutils.py` lines
227-228). -/
def coarse_key (a : Args) (k : Key) : Key :=
  (Int.floor ((k.1 : ℚ) / a.joinedcells), Int.floor ((k.2 : ℚ) / a.joinedcells))

/-- The selection step of `MapObj._tree_components` (`src/forestutils.py`
lines 223-232): group each fine cell with `canopy - ground > slicedepth`
under its coarse cell, in `density` insertion order. -/
def key_scale_record (a : Args) (s : MapState) :
    Option (List (Key × List Key)) :=
  s.density.foldlM
    (fun rec kv =>
      match dGet s.canopy kv.1, dGet s.ground kv.1 with
      | some c, some g =>
          if c - g > a.slicedepth then
            match dGet rec (coarse_key a kv.1) with
            | none => some (rec ++ [(coarse_key a kv.1, [kv.1])])
            | some v => some (dSet rec (coarse_key a kv.1) (v ++ [kv.1]))
          else some rec
      | _, _ => none)
    []

/-- Assignment of a unique integer label to each coarse key, from the
dict comprehension `trees = dict enumerate(tuple(key_scale_record))`: the
initial unique integer label of each coarse cell. -/
def init_labels (record : List (Key × List Key)) : List (Key × Nat) :=
  (record.map (·.1)).enum.map (fun p => (p.2, p.1))

/-- Method `MapObj._tree_components` (`src/forestutils.py` lines 219-238): select
and group the canopy cells, label the coarse cells, run the
connected-component union, and copy each coarse label back onto its fine
cells. -/
def tree_components (a : Args) (fuel : Nat) (s : MapState) :
    Option (List (Key × Nat)) :=
  (key_scale_record a s).bind (fun record =>
    record.foldlM
      (fun ret kv =>
        (dGet (connected_components fuel (init_labels record)) kv.1).map
          (fun label => kv.2.foldl (fun r sk => dSet r sk label) ret))
      [])

/-- The property C5 asserts of the label map: the labels in use form a
dense range `0..N-1` — equivalently, every label is smaller than the
number of distinct labels. -/
def dense_labels (m : List (Key × Nat)) : Prop :=
  ∀ v ∈ m.map (·.2), v < (m.map (·.2)).dedup.length

/-- One iteration of the loop in `MapObj.update_colours`
(`src/forestutils.py` lines 184-200): skip points classified as ground;
otherwise increment the cell's `filtered_density` and fold the point's
non-`xyz` attributes into the cell's colour sums.  `none` models the
`KeyError`s on a cell the spatial pass never saw, or on a channel absent
from the cell's existing colour dict. -/
def update_colours_step (a : Args) (s : MapState) (p : Pt) :
    Option MapState :=
  (is_ground a s p).bind (fun isg =>
    if isg then some s
    else
      (dGet s.filtered_density (coords a p.x p.y)).bind (fun fd =>
        let idx := coords a p.x p.y
        let s' := { s with filtered_density := dSet s.filtered_density idx (fd + 1) }
        match dGet s'.colours idx with
        | none => some { s' with colours := dSet s'.colours idx p.channels }
        | some cols =>
            (p.channels.foldlM
              (fun cs kv => (dGet cs kv.1).map (fun v => dSet cs kv.1 (v + kv.2)))
              cols).map
              (fun cols' => { s' with colours := dSet s'.colours idx cols' })))

/-- The whole second (colour) pass of `MapObj.update_colours`. -/
def update_colours_scan (a : Args) (ps : List Pt) (s : MapState) :
    Option MapState :=
  ps.foldlM (fun s p => update_colours_step a s p) s

/-- The UTM georeference of the file, `pointcloudfile.UTM_Coord(x, y, zone,
north)` built in `MapObj.__init__`. -/
structure UTMCoordRec where
  x : ℚ
  y : ℚ
  zone : Int
  north : Bool
deriving DecidableEq, Repr

/-- The record returned by `MapObj.tree_data` (`src/forestutils.py` lines
240-263). -/
structure TreeData where
  latitude : ℚ
  longitude : ℚ
  UTM_X : ℚ
  UTM_Y : ℚ
  UTM_zone : Int
  height : ℚ
  area : ℚ
  base_altitude : ℚ
  point_count : Nat
  colours : List (String × ℚ)
deriving DecidableEq, Repr

/-- The body of the `for k in keys` loop of `MapObj.tree_data`
(`src/forestutils.py` lines 258-262): update the running `height` maximum
and `point_count` sum, and *assign* `out[colour] = total /
filtered_density[k]` for each channel of the cell (each cell's assignment
overwriting the previous cell's).  `none` models the `KeyError`s on cells
missing from `canopy`, `ground`, `density`, `colours` or
`filtered_density`. -/
def tree_data_step (s : MapState) (out : TreeData) (k : Key) :
    Option TreeData :=
  match dGet s.canopy k, dGet s.ground k, dGet s.density k,
      dGet s.colours k, dGet s.filtered_density k with
  | some c, some g, some d, some cols, some fd =>
      some { out with
        height := max out.height (c - g),
        point_count := out.point_count + d,
        colours := cols.foldl
          (fun oc ct => dSet oc ct.1 (ct.2 / (fd : ℚ))) out.colours }
  | _, _, _, _, _ => none

/-- Method `MapObj.tree_data(keys)` (`src/forestutils.py` lines 240-263),
parametric in the external `utm.to_latlon` library call (`to_latlon`).
`none` models the `ZeroDivisionError` on an empty key set and the
`KeyError`s of `tree_data_step`. -/
def tree_data (a : Args) (to_latlon : ℚ → ℚ → Int → Bool → ℚ × ℚ)
    (utm : UTMCoordRec) (s : MapState) (keys : List Key) : Option TreeData :=
  if keys.length = 0 then none
  else
    let x := utm.x + a.cellsize * (keys.map (fun k => (k.1 : ℚ))).sum / (keys.length : ℚ)
    let y := utm.y + a.cellsize * (keys.map (fun k => (k.2 : ℚ))).sum / (keys.length : ℚ)
    let ll := to_latlon x y utm.zone utm.north
    (keys.mapM (fun k => dGet s.ground k)).bind (fun grounds =>
      keys.foldlM (tree_data_step s)
        { latitude := ll.1, longitude := ll.2, UTM_X := x, UTM_Y := y,
          UTM_zone := a.utmzone, height := 0,
          area := (keys.length : ℚ) * a.cellsize ^ 2,
          base_altitude := grounds.sum / (keys.length : ℚ),
          point_count := 0, colours := [] })

/-- The fine cells of the label map `trees` carrying the label `v` — the
set `keys[v]` built by the grouping loop of `MapObj.all_trees`. -/
def tree_group (trees : List (Key × Nat)) (v : Nat) : List Key :=
  (trees.filter (fun kv => kv.2 = v)).map (·.1)

/-- Method `MapObj.all_trees` (`src/forestutils.py` lines 265-278): group the
fine cells of the label map by label, call `tree_data` on each group, and
keep the records with `height > 1.5 * slicedepth`. -/
def all_trees (a : Args) (to_latlon : ℚ → ℚ → Int → Bool → ℚ × ℚ)
    (utm : UTMCoordRec) (s : MapState) (trees : List (Key × Nat)) :
    Option (List TreeData) :=
  ((trees.map (·.2)).dedup).foldlM
    (fun acc v =>
      (tree_data a to_latlon utm s (tree_group trees v)).map
        (fun data =>
          if data.height > 3 / 2 * a.slicedepth then acc ++ [data] else acc))
    []

/-- The claim's reading of the per-channel colour of a tree, following the
spec's words: the mean over the tree's cells of
`channel_sum / filtered_density`, cells without the channel or with zero
filtered density excluded.  Kept only to compare with `tree_data`. -/
def claimed_mean_colour (s : MapState) (keys : List Key) (c : String) : ℚ :=
  let per_cell := keys.filterMap (fun k =>
    match dGet s.colours k, dGet s.filtered_density k with
    | some cols, some fd =>
        if fd = 0 then none else (dGet cols c).map (fun t => t / (fd : ℚ))
    | _, _ => none)
  per_cell.sum / (per_cell.length : ℚ)

/-- The `channel_sum / filtered_density` ratio cell `k` contributes for
channel `c`, when the cell carries the channel. -/
def cell_colour_ratio (s : MapState) (k : Key) (c : String) : Option ℚ :=
  match dGet s.colours k, dGet s.filtered_density k with
  | some cols, some fd => (dGet cols c).map (fun t => t / (fd : ℚ))
  | _, _ => none

/-- What `tree_data` actually reports for a channel: the
`channel_sum / filtered_density` ratio of the *last* cell (in key order)
that carries the channel, each cell's assignment overwriting the
previous one. -/
def last_cell_colour (s : MapState) (keys : List Key) (c : String) :
    Option ℚ :=
  keys.reverse.findSome? (fun k => cell_colour_ratio s k c)

/-- Whether a cell's colour dict maps each channel name at most once —
the `dict` well-formedness Python guarantees for `MapObj.colours`
entries. -/
def colours_nodup_at (s : MapState) (k : Key) : Bool :=
  match dGet s.colours k with
  | some cols => decide (cols.map (·.1)).Nodup
  | none => true

/-- The distinct ground values among a cell's populated neighbours, as a
finite set. -/
def neighbor_ground_values (ground : List (Key × ℚ)) (k : Key) : Finset ℚ :=
  ((neighbors k).filterMap (fun n => dGet ground n)).toFinset

end ForestUtils

namespace PointCloudFile

/-- The `.ply` primitive property types of `PLY_TYPES`
(`src/pointcloudfile.py` line 139). -/
inductive PlyType
  | tfloat | tdouble | tuchar | tchar | tushort | tshort | tuint | tint
deriving DecidableEq, Repr

/-- The `struct` size in bytes of each primitive type. -/
def typeSize : PlyType → Nat
  | .tfloat => 4
  | .tdouble => 8
  | .tuchar => 1
  | .tchar => 1
  | .tushort => 2
  | .tshort => 2
  | .tuint => 4
  | .tint => 4

/-- The `.ply` format line variants. -/
inductive PlyFormat
  | ascii | binary_little_endian | binary_big_endian
deriving DecidableEq, Repr

/-- The parsed `.ply` header: format, comment lines, vertex count and the
ordered `property <type> <name>` declarations.  The ASCII serialisation
layer of the header (line splitting and keyword validation in
`ply_header_text` / `parse_ply_header`) is elided: the header travels in
this structured form. -/
structure PlyHeader where
  format : PlyFormat
  comments : List String
  vertex_count : Nat
  properties : List (PlyType × String)
deriving DecidableEq, Repr

/-- A file as the codec sees it: its header and its vertex data bytes
(each byte a `Nat` below 256). -/
structure PlyFile where
  header : PlyHeader
  data : List Nat
deriving DecidableEq, Repr

/-- A point as `IncrementalWriter.__call__` consumes it: a six-tuple
`(x, y, z, red, green, blue)`. -/
structure CloudPt where
  x : ℚ
  y : ℚ
  z : ℚ
  red : Nat
  green : Nat
  blue : Nat
deriving DecidableEq, Repr

/-- Encoding `struct.pack` of one `B` (unsigned 8-bit) field: the byte itself, or a
`struct.error` (`none`) when the value is out of range. -/
def packB (v : Nat) : Option (List Nat) :=
  if v < 256 then some [v] else none

/-- Encoding `self.binary.pack(*point[:6])` with `self.binary =
struct.Struct('<fffBBB')` (`src/pointcloudfile.py` line 194): three
little-endian 32-bit floats then three bytes.  `packF32` stands for the
IEEE-754 binary32 encoding performed by `struct`; the codec claims hold
for any 4-byte-per-value encoding, so it is a parameter here. -/
def pack_fffBBB (packF32 : ℚ → List Nat) (p : CloudPt) : Option (List Nat) :=
  (packB p.red).bind (fun r =>
    (packB p.green).bind (fun g =>
      (packB p.blue).map (fun b =>
        packF32 p.x ++ packF32 p.y ++ packF32 p.z ++ r ++ g ++ b)))

/-- The `IncrementalWriter` state: the running vertex count and the
spooled temporary buffer of packed records. -/
structure IncrementalWriter where
  count : Nat
  temp_storage : List Nat
deriving DecidableEq, Repr

/-- A fresh writer (`IncrementalWriter.__init__`). -/
def IncrementalWriter.new : IncrementalWriter := ⟨0, []⟩

/-- Method `IncrementalWriter.__call__(point)`: pack the point into the buffer
and count it; `none` is the `struct.error` on an out-of-range colour. -/
def writer_call (packF32 : ℚ → List Nat) (w : IncrementalWriter)
    (p : CloudPt) : Option IncrementalWriter :=
  (pack_fffBBB packF32 p).map (fun bytes =>
    { count := w.count + 1, temp_storage := w.temp_storage ++ bytes })

/-- The fixed property list the writer declares: `float x/y/z`,
`uchar red/green/blue`. -/
def writer_properties : List (PlyType × String) :=
  [(.tfloat, "x"), (.tfloat, "y"), (.tfloat, "z"),
   (.tuchar, "red"), (.tuchar, "green"), (.tuchar, "blue")]

/-- The packed records of a whole point stream, in order (`none` as soon
as one point fails to pack). -/
def pack_points (packF32 : ℚ → List Nat) : List CloudPt → Option (List (List Nat))
  | [] => some []
  | p :: rest =>
      (pack_fffBBB packF32 p).bind (fun r =>
        (pack_points packF32 rest).map (fun rs => r :: rs))

/-- The finalisation step (`IncrementalWriter.__del__`,
`src/pointcloudfile.py` lines 212-237): emit the
`format binary_little_endian` header carrying the final count and the
fixed `float x/y/z`, `uchar red/green/blue` property list, then the
buffered bytes.  `write` is called with `utm_coords=None` here, so no UTM
comment line is inserted. -/
def writer_finalize (w : IncrementalWriter) : PlyFile :=
  { header :=
      { format := .binary_little_endian,
        comments := [],
        vertex_count := w.count,
        properties := writer_properties },
    data := w.temp_storage }

/-- Function `pointcloudfile.write(cloud, fname)` (`src/pointcloudfile.py` lines
240-245): stream every point through an `IncrementalWriter`, whose
finaliser then materialises the file. -/
def write (packF32 : ℚ → List Nat) (pts : List CloudPt) : Option PlyFile :=
  (pts.foldlM (fun w p => writer_call packF32 w p) IncrementalWriter.new).map
    writer_finalize

/-- Function `parse_ply_header` (`src/pointcloudfile.py` lines 108-151) on the
structured header: reject ASCII files, require `x`, `y` and `z` among the
property names, and surface the vertex count and property list the binary
record decoder is built from. -/
def parse_ply_header (h : PlyHeader) : Option (Nat × List (PlyType × String)) :=
  match h.format with
  | .ascii => none
  | _ =>
      let names := h.properties.map (·.2)
      if ("x" ∈ names ∧ "y" ∈ names ∧ "z" ∈ names)
      then some (h.vertex_count, h.properties)
      else none

/-- Little-endian byte composition of an unsigned integer. -/
def leValue (bs : List Nat) : Nat :=
  bs.foldr (fun b acc => b + 256 * acc) 0

/-- Two's-complement reading of a `w`-byte unsigned value. -/
def toSigned (w : Nat) (v : Nat) : Int :=
  if v < 2 ^ (8 * w - 1) then (v : Int) else (v : Int) - 2 ^ (8 * w)

/-- The `struct` decoding of one field from its bytes.  Floats go through the
abstract IEEE-754 decoders `unpackF32` / `unpackF64`; integers are
decoded concretely; a big-endian format reverses the bytes first. -/
def decodeVal (unpackF32 unpackF64 : List Nat → ℚ) (big : Bool)
    (t : PlyType) (bs0 : List Nat) : ℚ :=
  let bs := if big then bs0.reverse else bs0
  match t with
  | .tfloat => unpackF32 bs
  | .tdouble => unpackF64 bs
  | .tuchar => (leValue bs : ℚ)
  | .tchar => (toSigned 1 (leValue bs) : ℚ)
  | .tushort => (leValue bs : ℚ)
  | .tshort => (toSigned 2 (leValue bs) : ℚ)
  | .tuint => (leValue bs : ℚ)
  | .tint => (toSigned 4 (leValue bs) : ℚ)

/-- Decoding `fmt.unpack` of one fixed-size record: cut the record's bytes along
the declared property sizes and decode each field. -/
def decode_record (unpackF32 unpackF64 : List Nat → ℚ) (big : Bool) :
    List (PlyType × String) → List Nat → List ℚ
  | [], _ => []
  | t :: ts, bs =>
      decodeVal unpackF32 unpackF64 big t.1 (bs.take (typeSize t.1)) ::
        decode_record unpackF32 unpackF64 big ts (bs.drop (typeSize t.1))

/-- The record size `fmt.size`: the sum of the declared property sizes. -/
def record_size (ts : List (PlyType × String)) : Nat :=
  (ts.map (fun t => typeSize t.1)).sum

/-- The `for _ in range(vertex_count)` read loop of `_read_ply`: unpack
one record of `fmt.size` bytes per vertex; running out of bytes is the
`struct.error` on a short read (`none`). -/
def read_records (unpackF32 unpackF64 : List Nat → ℚ) (big : Bool)
    (ts : List (PlyType × String)) : Nat → List Nat → Option (List (List ℚ))
  | 0, _ => some []
  | n + 1, bs =>
      if record_size ts ≤ bs.length then
        (read_records unpackF32 unpackF64 big ts n (bs.drop (record_size ts))).map
          (fun rest => decode_record unpackF32 unpackF64 big ts (bs.take (record_size ts)) :: rest)
      else none

/-- Function `_read_ply` (`src/pointcloudfile.py` lines 154-163): parse the header
and decode `vertex_count` records in declared field order. -/
def read_ply (unpackF32 unpackF64 : List Nat → ℚ) (f : PlyFile) :
    Option (List (List ℚ)) :=
  (parse_ply_header f.header).bind (fun ph =>
    read_records unpackF32 unpackF64
      (f.header.format = .binary_big_endian) ph.2 ph.1 f.data)

end PointCloudFile

namespace UTMConvert

noncomputable section

open Real

/-- WGS84 semi-major axis, `sm_a` (`utm_convert.py` line 49). -/
def sm_a : ℝ := 6378137

/-- WGS84 semi-minor axis, `sm_b` (`utm_convert.py` line 50). -/
def sm_b : ℝ := 6356752.314

/-- Constant `UTMScaleFactor` (`utm_convert.py` line 51). -/
def UTMScaleFactor : ℝ := 0.9996

/-- Constant `UTM_MAX_VAL = 10**7` (`utm_convert.py` line 40). -/
def UTM_MAX_VAL : ℝ := 10 ^ 7

/-- Python's `%` on reals for a positive right operand:
`x % m = x - m * ⌊x / m⌋`. -/
def pymod (x m : ℝ) : ℝ := x - m * (Int.floor (x / m) : ℝ)

/-- Function `ArcLengthOfMeridian(phi)` (`utm_convert.py` lines 66-85).  Note the
source adds `n**4 / 64` *outside* the product in `alpha`. -/
def ArcLengthOfMeridian (phi : ℝ) : ℝ :=
  let n := (sm_a - sm_b) / (sm_a + sm_b)
  let alpha := ((sm_a + sm_b) / 2) * (1 + n ^ 2 / 4) + n ^ 4 / 64
  let beta := -3 * n / 2 + 9 * n ^ 3 / 16 - 3 * n ^ 5 / 32
  let gamma := 15 * n ^ 2 / 16 + (-15 * n ^ 4 / 32)
  let delta := -35 * n ^ 3 / 48 + 105 * n ^ 5 / 256
  let epsilon := 315 * n ^ 4 / 512
  (phi + beta * Real.sin (2 * phi) + gamma * Real.sin (4 * phi)
    + delta * Real.sin (6 * phi) + epsilon * Real.sin (8 * phi)) * alpha

/-- Function `FootpointLatitude(y)` (`utm_convert.py` lines 93-114). -/
def FootpointLatitude (y : ℝ) : ℝ :=
  let n := (sm_a - sm_b) / (sm_a + sm_b)
  let alpha_ := 0.5 * (sm_a + sm_b) * (1 + n ^ 2 / 4 + n ^ 4 / 64)
  let y_ := y / alpha_
  let beta_ := 3 * n / 2 - 27 * n ^ 3 / 32 + 269 * n ^ 5 / 512
  let gamma_ := 21 * n ^ 2 / 16 - 55 * n ^ 4 / 32
  let delta_ := 151 * n ^ 3 / 96 - 417 * n ^ 5 / 128
  let epsilon_ := 1097 * n ^ 4 / 512
  y_ + beta_ * Real.sin (2 * y_) + gamma_ * Real.sin (4 * y_)
    + delta_ * Real.sin (6 * y_) + epsilon_ * Real.sin (8 * y_)

/-- Function `MapLatLonToXY(phi, lambda_, meridian)` (`utm_convert.py` lines
122-170): the forward Transverse Mercator series.  The `coef` and `frac`
dicts are inlined into the two explicit four-term sums.
`(1 + nu2) ** 0.5` is `Real.sqrt` (the base is nonnegative). -/
def MapLatLonToXY (phi lambda_ meridian : ℝ) : ℝ × ℝ :=
  let ep2 := (sm_a ^ 2 - sm_b ^ 2) / sm_b ^ 2
  let nu2 := ep2 * Real.cos phi ^ 2
  let N := sm_a ^ 2 / (sm_b * Real.sqrt (1 + nu2))
  let t := Real.tan phi
  let l := lambda_ - meridian
  let x :=
    N * Real.cos phi ^ 1 * 1 * l ^ 1
      + (N / 6) * Real.cos phi ^ 3 * (1 - t ^ 2 + nu2) * l ^ 3
      + (N / 120) * Real.cos phi ^ 5
          * (5 - 18 * t ^ 2 + t ^ 4 + 14 * nu2 - 58 * t ^ 2 * nu2) * l ^ 5
      + (N / 5040) * Real.cos phi ^ 7
          * (61 - 479 * t ^ 2 + 179 * t ^ 4 - t ^ 6) * l ^ 7
  let y :=
    (t / 2 * N) * Real.cos phi ^ 2 * 1 * l ^ 2
      + (t / 24 * N) * Real.cos phi ^ 4
          * (5 - t ^ 2 + 9 * nu2 + 4 * nu2 ^ 2) * l ^ 4
      + (t / 720 * N) * Real.cos phi ^ 6
          * (61 - 58 * t ^ 2 + t ^ 4 + 270 * nu2 - 330 * t ^ 2 * nu2) * l ^ 6
      + (t / 40320 * N) * Real.cos phi ^ 8
          * (1385 - 3111 * t ^ 2 + 543 * t ^ 4 - t ^ 6) * l ^ 8
  (x, y + ArcLengthOfMeridian phi)

/-- A UTM coordinate tuple as `UTM_coords` carries it. -/
structure UTMCoords where
  x : ℝ
  y : ℝ
  zone : Int
  south : Bool

open Classical in
/-- Function `LatLonToUTMXY(lat, lon, target_zone)` (`utm_convert.py` lines
173-203) with an explicit target zone: project, apply the scale factor
and false easting, and move a negative northing into the southern
hemisphere. -/
def LatLonToUTMXY (lat lon : ℝ) (zone : Int) : UTMCoords :=
  let c_merid := ((zone : ℝ) * 6 - 183) * π / 180
  let xy := MapLatLonToXY lat lon c_merid
  let x := xy.1 * UTMScaleFactor + UTM_MAX_VAL / 20
  let y := xy.2 * UTMScaleFactor
  if y < 0 then ⟨x, y + UTM_MAX_VAL, zone, true⟩ else ⟨x, y, zone, false⟩

/-- The nested `wrap(L, i)` of `MapXYToLatLon` (`utm_convert.py` lines
261-263), translated with Python's operator precedence: the source text
`((L + math.pi/i) % 2*math.pi/i) - math.pi/i` parses as
`(((L + π/i) % 2) * π) / i - π/i`, NOT as a reduction modulo `2π/i`. -/
def wrap (L : ℝ) (i : ℝ) : ℝ :=
  pymod (L + π / i) 2 * π / i - π / i

/-- Function `MapXYToLatLon(x, y, lambda_0)` (`utm_convert.py` lines 216-264): the
inverse Transverse Mercator series about the footpoint latitude, with the
`frac` and `poly` dicts inlined, wrapped by `wrap`. -/
def MapXYToLatLon (x y lambda_0 : ℝ) : ℝ × ℝ :=
  let phif := FootpointLatitude y
  let ep2 := (sm_a ^ 2 - sm_b ^ 2) / sm_b ^ 2
  let cf := Real.cos phif
  let nuf2 := ep2 * cf ^ 2
  let Nf := sm_a ^ 2 / (sm_b * Real.sqrt (1 + nuf2))
  let tf := Real.tan phif
  let lat :=
    phif
      + (tf / (2 * Nf ^ 2)) * (-1 - nuf2) * x ^ 2
      + (tf / (24 * Nf ^ 4))
          * (5 + 3 * tf ^ 2 + 6 * nuf2 - 6 * tf ^ 2 * nuf2
              - 3 * nuf2 ^ 2 - 9 * tf ^ 2 * nuf2 ^ 2) * x ^ 4
      + (tf / (720 * Nf ^ 6))
          * (-61 - 90 * tf ^ 2 - 45 * tf ^ 4 - 107 * nuf2
              + 162 * tf ^ 2 * nuf2) * x ^ 6
      + (tf / (40320 * Nf ^ 8))
          * (1385 + 3633 * tf ^ 2 + 4095 * tf ^ 4 + 1575 * tf ^ 6) * x ^ 8
  let lon :=
    lambda_0
      + (1 / (Nf * cf)) * 1 * x ^ 1
      + (1 / (6 * Nf ^ 3 * cf)) * (-1 - 2 * tf ^ 2 - nuf2) * x ^ 3
      + (1 / (120 * Nf ^ 5 * cf))
          * (5 + 28 * tf ^ 2 + 24 * tf ^ 4 + 6 * nuf2 + 8 * tf ^ 2 * nuf2)
          * x ^ 5
      + (1 / (5040 * Nf ^ 7 * cf))
          * (-61 - 662 * tf ^ 2 - 1320 * tf ^ 4 - 720 * tf ^ 6) * x ^ 7
  (wrap lat 2, wrap lon 1)

/-- Function `UTMXYToLatLon(x, y, zone, south)` (`utm_convert.py` lines 274-295):
undo the false easting and scale factor (and the false northing in the
south), then invert about the zone's central meridian. -/
def UTMXYToLatLon (x y : ℝ) (zone : Int) (south : Bool) : ℝ × ℝ :=
  let x1 := (x - UTM_MAX_VAL / 20) / UTMScaleFactor
  let y0 := if south then y - UTM_MAX_VAL else y
  let y1 := y0 / UTMScaleFactor
  let c_merid := ((zone : ℝ) * 6 - 183) * π / 180
  MapXYToLatLon x1 y1 c_merid

end

end UTMConvert

namespace Examples

open ForestUtils PointCloudFile

/-- Default-style configuration with unit cellsize and coarse cells equal
to fine cells (`--cellsize 1 --joinedcells 1`). -/
def argsUnit : Args :=
  { cellsize := 1, grounddepth := 1/5, slicedepth := 3/5,
    joinedcells := 1, utmzone := 55, north := false }

/-- A placeholder for the external `utm.to_latlon` library call. -/
def toLatLonStub : ℚ → ℚ → Int → Bool → ℚ × ℚ := fun _ _ _ _ => (0, 0)

/-- A file georeference for the examples. -/
def utmEx : UTMCoordRec := { x := 0, y := 0, zone := 55, north := false }

/-- Grid for C5: five canopy cells — the 2×2 block `(0,0)..(1,1)` plus the
isolated `(5,5)` — every cell with ground 0 and canopy 10. -/
def sC5 : MapState :=
  { density := [((0,0),1), ((0,1),1), ((1,0),1), ((1,1),1), ((5,5),1)],
    canopy := [((0,0),10), ((0,1),10), ((1,0),10), ((1,1),10), ((5,5),10)],
    ground := [((0,0),0), ((0,1),0), ((1,0),0), ((1,1),0), ((5,5),0)],
    filtered_density := [((0,0),1), ((0,1),1), ((1,0),1), ((1,1),1), ((5,5),1)],
    colours := [] }

/-- Ground map for C6: a cell at 0 whose 8 neighbours are all populated
with the single ground value 10. -/
def gC6 : List (Key × ℚ) :=
  [((0,0),0),
   ((-1,-1),10), ((-1,0),10), ((-1,1),10),
   ((0,-1),10), ((0,1),10),
   ((1,-1),10), ((1,0),10), ((1,1),10)]

/-- Ground map for C7: a single cell, so the initial problematic set is
empty. -/
def gC7 : List (Key × ℚ) := [((0,0),0)]

/-- Ground map for the C7 early-stop witness: a centre far above its 8
neighbours, which carry 8 distinct values; the centre stays problematic
after one pass, so the recomputed set is 100% of the previous one. -/
def gW7 : List (Key × ℚ) :=
  [((0,0),100),
   ((-1,-1),0), ((-1,0),10), ((-1,1),20),
   ((0,-1),30), ((0,1),40),
   ((1,-1),50), ((1,0),60), ((1,1),70)]

/-- Grid for C8/C9/C1: one tree of two cells; cell `(0,0)` has colour sum
red = 4 over filtered density 2, cell `(1,0)` has red = 9 over filtered
density 3. -/
def sC8 : MapState :=
  { density := [((0,0),1), ((1,0),1)],
    canopy := [((0,0),5), ((1,0),5)],
    ground := [((0,0),0), ((1,0),0)],
    filtered_density := [((0,0),2), ((1,0),3)],
    colours := [((0,0), [("red", 4)]), ((1,0), [("red", 9)])] }

/-- The label map pairing both cells of `sC8` into one tree. -/
def treesC9 : List (Key × Nat) := [((0,0),0), ((1,0),0)]

/-- The record `tree_data` computes for the two-cell tree of `sC8`. -/
def tC8 : TreeData :=
  { latitude := 0, longitude := 0, UTM_X := 1/2, UTM_Y := 0, UTM_zone := 55,
    height := 5, area := 2, base_altitude := 0, point_count := 2,
    colours := [("red", 3)] }

/-- Points for the C4 witness: three points in one cell. -/
def ptsC4 : List Pt :=
  [{ x := 1/2, y := 1/2, z := 1, channels := [] },
   { x := 1/2, y := 1/2, z := 3, channels := [] },
   { x := 1/2, y := 1/2, z := 0, channels := [] }]

/-- Ground map for the C10 witness. -/
def sC10 : MapState :=
  { density := [((0,0),1)], canopy := [((0,0),2)], ground := [((0,0),2)],
    filtered_density := [((0,0),1)], colours := [] }

/-- The point sitting exactly on its cell's ground value. -/
def pC10 : Pt := { x := 1/2, y := 1/2, z := 2, channels := [] }

/-- A stub 4-byte encoder standing in for IEEE-754 binary32 packing in
the C3 witness. -/
def packF32Stub : ℚ → List Nat := fun _ => [0, 0, 0, 0]

/-- A stub float decoder for the C3 witness. -/
def unpackF32Stub : List Nat → ℚ := fun _ => 0

/-- Points for the C3 witness. -/
def ptsC3 : List CloudPt :=
  [{ x := 1, y := 2, z := 3, red := 10, green := 20, blue := 30 }]

/-- The file `write` produces from `ptsC3` under the stub encoder. -/
def fileC3 : PlyFile :=
  { header :=
      { format := .binary_little_endian, comments := [], vertex_count := 1,
        properties := writer_properties },
    data := [0, 0, 0, 0, 0, 0, 0, 0, 0, 0, 0, 0, 10, 20, 30] }

/-- The label map `tree_components` computes on `sC5`. -/
def mC5 : List (Key × Nat) :=
  [((0,0),0), ((0,1),0), ((1,0),2), ((1,1),0), ((5,5),4)]

/-- Configuration with coarse cells twice the fine-cell size
(`--joinedcells 2`). -/
def argsJoined : Args :=
  { cellsize := 1, grounddepth := 1/5, slicedepth := 3/5,
    joinedcells := 2, utmzone := 55, north := false }

/-- Grid whose qualifying fine cells `(0,0)`, `(0,1)`, `(1,0)` all share
the coarse cell `(0,0)` under `argsJoined`, plus the isolated `(4,4)`. -/
def sC5b : MapState :=
  { density := [((0,0),1), ((0,1),1), ((1,0),1), ((4,4),1)],
    canopy := [((0,0),10), ((0,1),10), ((1,0),10), ((4,4),10)],
    ground := [((0,0),0), ((0,1),0), ((1,0),0), ((4,4),0)],
    filtered_density := [((0,0),1), ((0,1),1), ((1,0),1), ((4,4),1)],
    colours := [] }

/-- The coarse-cell grouping `key_scale_record` computes on `sC5b`. -/
def recordC5b : List (Key × List Key) :=
  [((0,0), [(0,0),(0,1),(1,0)]), ((2,2), [(4,4)])]

/-- The label map `tree_components` computes on `sC5b`. -/
def mC5b : List (Key × Nat) :=
  [((0,0),0), ((0,1),0), ((1,0),0), ((4,4),1)]

/-- The coarse-cell grouping `key_scale_record` computes on `sC5`. -/
def recordC5 : List (Key × List Key) :=
  [((0,0),[(0,0)]), ((0,1),[(0,1)]), ((1,0),[(1,0)]),
   ((1,1),[(1,1)]), ((5,5),[(5,5)])]

/-- The state the spatial scan builds from `ptsC4`. -/
def sC4 : MapState :=
  { density := [((0,0),3)], canopy := [((0,0),3)], ground := [((0,0),0)],
    filtered_density := [((0,0),1)], colours := [] }

end Examples

namespace ForestUtils

/-- Invariant `ground ≤ canopy` on every cell the density map knows, with both maps
defined there. -/
def SpatialInv (s : MapState) : Prop :=
  ∀ k, (dGet s.density k).isSome →
    ∃ g c, dGet s.ground k = some g ∧ dGet s.canopy k = some c ∧ g ≤ c

theorem dGet_dSet_self {κ α : Type} [DecidableEq κ] (d : List (κ × α))
    (k : κ) (v : α) : dGet (dSet d k v) k = some v := by
  induction d with
  | nil => simp [dGet, dSet]
  | cons p rest ih =>
      obtain ⟨k', v'⟩ := p
      by_cases h : k' = k
      · subst h; simp [dGet, dSet]
      · simp [dGet, dSet, h, ih]

theorem dGet_dSet_ne {κ α : Type} [DecidableEq κ] (d : List (κ × α))
    {k k2 : κ} (v : α) (h : k2 ≠ k) : dGet (dSet d k v) k2 = dGet d k2 := by
  induction d with
  | nil =>
      simp only [dSet, dGet]
      rw [if_neg (Ne.symm h)]
  | cons p rest ih =>
      obtain ⟨k', v'⟩ := p
      by_cases hk : k' = k
      · subst hk
        simp only [dSet, if_pos rfl, dGet]
        rw [if_neg (Ne.symm h), if_neg (Ne.symm h)]
      · simp only [dSet, if_neg hk, dGet]
        by_cases hk2 : k' = k2
        · rw [if_pos hk2, if_pos hk2]
        · rw [if_neg hk2, if_neg hk2, ih]

theorem update_spatial_step_inv {a : Args} {s s' : MapState} {p : Pt}
    (hI : SpatialInv s) (h : update_spatial_step a s p = some s') :
    SpatialInv s' := by
  unfold update_spatial_step at h
  cases hd : dGet s.density (coords a p.x p.y) with
  | none =>
      simp only [hd] at h
      injection h with h
      subst h
      intro k hk
      by_cases hkidx : k = coords a p.x p.y
      · subst hkidx
        exact ⟨p.z, p.z, by simp [dGet_dSet_self], by simp [dGet_dSet_self],
          le_refl _⟩
      · simp only [dGet_dSet_ne _ _ hkidx] at hk ⊢
        exact hI k hk
  | some d =>
      simp only [hd] at h
      obtain ⟨g, c, hg, hc, hgc⟩ := hI (coords a p.x p.y) (by simp [hd])
      simp only [hg, hc] at h
      injection h with h
      subst h
      by_cases h1 : g > p.z
      · simp only [if_pos h1]
        intro k hk
        dsimp only at hk ⊢
        by_cases hkidx : k = coords a p.x p.y
        · subst hkidx
          exact ⟨p.z, c, by simp [dGet_dSet_self], by simpa using hc,
            le_trans (le_of_lt h1) hgc⟩
        · simp only [dGet_dSet_ne _ _ hkidx] at hk ⊢
          exact hI k hk
      · simp only [if_neg h1]
        by_cases h2 : c < p.z
        · simp only [if_pos h2]
          intro k hk
          dsimp only at hk ⊢
          by_cases hkidx : k = coords a p.x p.y
          · subst hkidx
            exact ⟨g, p.z, by simpa using hg, by simp [dGet_dSet_self],
              le_trans hgc (le_of_lt h2)⟩
          · simp only [dGet_dSet_ne _ _ hkidx] at hk ⊢
            exact hI k hk
        · simp only [if_neg h2]
          intro k hk
          dsimp only at hk ⊢
          by_cases hkidx : k = coords a p.x p.y
          · subst hkidx
            exact ⟨g, c, by simpa using hg, by simpa using hc, hgc⟩
          · simp only [dGet_dSet_ne _ _ hkidx] at hk ⊢
            exact hI k hk

theorem update_spatial_scan_inv {a : Args} {ps : List Pt} :
    ∀ {s s' : MapState}, SpatialInv s →
      update_spatial_scan a ps s = some s' → SpatialInv s' := by
  induction ps with
  | nil =>
      intro s s' hI h
      simp only [update_spatial_scan, List.foldlM_nil] at h
      injection h with h
      subst h
      exact hI
  | cons p rest ih =>
      intro s s' hI h
      simp only [update_spatial_scan, List.foldlM_cons] at h
      cases h1 : update_spatial_step a s p with
      | none => rw [h1] at h; simp at h
      | some s1 =>
          rw [h1] at h
          exact ih (update_spatial_step_inv hI h1) h

theorem spatialInv_empty : SpatialInv MapState.empty := by
  intro k hk
  simp [MapState.empty, dGet] at hk

end ForestUtils

open ForestUtils PointCloudFile UTMConvert Examples

/-- C4: after any sequence of spatial-ingestion steps from the empty map
(before ground smoothing runs), every cell with positive density has both
a ground and a canopy value, with `ground ≤ canopy`. -/
theorem c4_ground_le_canopy (a : Args) (ps : List Pt) (s' : MapState)
    (h : update_spatial_scan a ps MapState.empty = some s')
    (k : Key) (d : Nat) (hd : dGet s'.density k = some d) (hpos : 0 < d) :
    ∃ g c, dGet s'.ground k = some g ∧ dGet s'.canopy k = some c ∧ g ≤ c :=
  update_spatial_scan_inv spatialInv_empty h k (by simp [hd])

theorem c4_witness :
    (update_spatial_scan argsUnit ptsC4 MapState.empty = some sC4) ∧
    ∃ g c, dGet sC4.ground (0,0) = some g ∧ dGet sC4.canopy (0,0) = some c ∧
      g ≤ c :=
  ⟨by with_unfolding_all decide,
   c4_ground_le_canopy argsUnit ptsC4 sC4 (by with_unfolding_all decide)
     (0,0) 3 (by with_unfolding_all decide) (by decide)⟩

/-- C10: a point lying exactly on its cell's ground value (`is_lowest`)
is classified as ground by `is_ground` whenever `grounddepth` is
positive. -/
theorem c10_lowest_implies_ground (a : Args) (s : MapState) (p : Pt)
    (hd : 0 < a.grounddepth) (h : is_lowest a s p = some true) :
    is_ground a s p = some true := by
  unfold is_lowest at h
  unfold is_ground
  cases hg : dGet s.ground (coords a p.x p.y) with
  | none => rw [hg] at h; simp at h
  | some g =>
      rw [hg] at h
      simp only [Option.map_some', Option.some.injEq, decide_eq_true_eq] at h
      simp only [Option.map_some', Option.some.injEq, decide_eq_true_eq]
      rw [h, sub_self]
      exact hd

theorem c10_witness :
    (0 < argsUnit.grounddepth) ∧
    (is_lowest argsUnit sC10 pC10 = some true) ∧
    is_ground argsUnit sC10 pC10 = some true :=
  ⟨by with_unfolding_all decide, by with_unfolding_all decide,
   c10_lowest_implies_ground argsUnit sC10 pC10 (by with_unfolding_all decide)
     (by with_unfolding_all decide)⟩

/-- C6 counterexample: on `gC6` the cell `(0,0)` has all 8 neighbours
populated and all 8 of their ground values differ from its own by more
than `2 * cellsize` — the spec's reading flags it — yet `detect_issues`
returns the empty set, because the code measures the Python *set* of
distinct neighbour ground values (here a single value, 10). -/
theorem c6_counterexample :
    claimed_problematic argsUnit gC6 (0,0) = some true ∧
    detect_issues argsUnit gC6 [(0,0)] = some [] :=
  ⟨by with_unfolding_all decide, by with_unfolding_all decide⟩

/-- C7 counterexample: on the one-cell ground map `gC7` the initial
problematic set is empty, and `smooth_ground` raises `ZeroDivisionError`
(`none`) in `len(problematic) / prev` instead of returning normally. -/
theorem c7_counterexample :
    detect_issues argsUnit gC7 (gC7.map (·.1)) = some [] ∧
    smooth_ground argsUnit gC7 = none :=
  ⟨by with_unfolding_all decide, by with_unfolding_all decide⟩

theorem arcLengthOfMeridian_zero : ArcLengthOfMeridian 0 = 0 := by
  simp [ArcLengthOfMeridian]

theorem footpointLatitude_zero : FootpointLatitude 0 = 0 := by
  simp [FootpointLatitude]

theorem mapLatLonToXY_at_meridian (m : ℝ) :
    MapLatLonToXY 0 m m = (0, 0) := by
  simp [MapLatLonToXY, sub_self, arcLengthOfMeridian_zero]

theorem latLonToUTMXY_eval :
    LatLonToUTMXY 0 (Real.pi / 60) 31 = ⟨500000, 0, 31, false⟩ := by
  have hmer : (((31 : ℤ) : ℝ) * 6 - 183) * Real.pi / 180 = Real.pi / 60 := by
    push_cast
    ring
  unfold LatLonToUTMXY
  rw [hmer]
  simp only [mapLatLonToXY_at_meridian]
  norm_num [UTMScaleFactor, UTM_MAX_VAL]

theorem pymod_pi_half : pymod (Real.pi / 2) 2 = Real.pi / 2 := by
  have hfl : Int.floor (Real.pi / 2 / 2) = 0 := by
    rw [Int.floor_eq_zero_iff]
    constructor
    · positivity
    · nlinarith [Real.pi_lt_d2]
  unfold pymod
  rw [hfl]
  push_cast
  ring

theorem mapXYToLatLon_zero_lat (m : ℝ) :
    (MapXYToLatLon 0 0 m).1 = Real.pi ^ 2 / 4 - Real.pi / 2 := by
  simp only [MapXYToLatLon, footpointLatitude_zero]
  norm_num [wrap]
  rw [pymod_pi_half]
  ring

/-- C2: the UTM round trip is broken far beyond its stated 1e-10 radian
contract.  Feeding latitude 0 at the central meridian of zone 31
(longitude π/60) through `LatLonToUTMXY` and back through
`UTMXYToLatLon` returns latitude `π²/4 − π/2 ≈ 0.897 rad` instead of 0:
`wrap`'s `(L + π/i) % 2*π/i` reduces modulo 2 and then *multiplies* by
`π/i` (Python operator precedence), so the inverse projection cannot meet
the round-trip bound its own `hypothesis` tests assert. -/
theorem c2_roundtrip_latitude_breaks :
    (UTMXYToLatLon (LatLonToUTMXY 0 (Real.pi / 60) 31).x
        (LatLonToUTMXY 0 (Real.pi / 60) 31).y 31
        (LatLonToUTMXY 0 (Real.pi / 60) 31).south).1 - 0 =
      Real.pi ^ 2 / 4 - Real.pi / 2 ∧
    1 / 10 ^ 10 <
      |(UTMXYToLatLon (LatLonToUTMXY 0 (Real.pi / 60) 31).x
          (LatLonToUTMXY 0 (Real.pi / 60) 31).y 31
          (LatLonToUTMXY 0 (Real.pi / 60) 31).south).1 - 0| := by
  rw [latLonToUTMXY_eval]
  have h1 : (UTMXYToLatLon 500000 0 31 false).1 =
      Real.pi ^ 2 / 4 - Real.pi / 2 := by
    unfold UTMXYToLatLon
    norm_num [UTM_MAX_VAL, UTMScaleFactor]
    rw [mapXYToLatLon_zero_lat]
  rw [h1]
  constructor
  · ring
  · rw [sub_zero, abs_of_pos (by nlinarith [Real.pi_gt_three])]
    nlinarith [Real.pi_gt_three]

set_option maxRecDepth 8000 in
/-- C5 counterexample: on the grid `sC5` (a 2×2 block of qualifying
coarse cells plus one isolated coarse cell) the labeler returns labels
`{0, 2, 4}`: not a dense `0..N-1` range (no relabelling step exists in
`_tree_components`), and even one label more than the two true connected
components, because `expand` returns at the first missing neighbour. -/
theorem c5_counterexample :
    tree_components argsUnit 1000 sC5 = some mC5 ∧ ¬ dense_labels mC5 :=
  ⟨by with_unfolding_all decide, fun hc => absurd (hc 4 (by decide)) (by decide)⟩

theorem tree_data_step_fields {s : MapState} {out out' : TreeData} {k : Key}
    (h : tree_data_step s out k = some out') :
    out'.latitude = out.latitude ∧ out'.longitude = out.longitude ∧
    out'.UTM_X = out.UTM_X ∧ out'.UTM_Y = out.UTM_Y ∧
    out'.UTM_zone = out.UTM_zone ∧ out'.area = out.area ∧
    out'.base_altitude = out.base_altitude := by
  unfold tree_data_step at h
  repeat' split at h
  all_goals try exact Option.noConfusion h
  all_goals injection h with h
  all_goals subst h
  all_goals exact ⟨rfl, rfl, rfl, rfl, rfl, rfl, rfl⟩

theorem tree_data_fold_fields {s : MapState} :
    ∀ (keys : List Key) (init out : TreeData),
      keys.foldlM (tree_data_step s) init = some out →
      out.latitude = init.latitude ∧ out.longitude = init.longitude ∧
      out.UTM_X = init.UTM_X ∧ out.UTM_Y = init.UTM_Y ∧
      out.UTM_zone = init.UTM_zone ∧ out.area = init.area ∧
      out.base_altitude = init.base_altitude := by
  intro keys
  induction keys with
  | nil =>
      intro init out h
      injection h with h
      subst h
      exact ⟨rfl, rfl, rfl, rfl, rfl, rfl, rfl⟩
  | cons k rest ih =>
      intro init out h
      simp only [List.foldlM_cons] at h
      cases h1 : tree_data_step s init k with
      | none => rw [h1] at h; exact absurd h (by simp)
      | some mid =>
          rw [h1] at h
          obtain ⟨a1, a2, a3, a4, a5, a6, a7⟩ := ih mid out h
          obtain ⟨b1, b2, b3, b4, b5, b6, b7⟩ := tree_data_step_fields h1
          exact ⟨a1.trans b1, a2.trans b2, a3.trans b3, a4.trans b4,
            a5.trans b5, a6.trans b6, a7.trans b7⟩

theorem tree_data_init_fields {a : Args}
    {to_latlon : ℚ → ℚ → Int → Bool → ℚ × ℚ} {utm : UTMCoordRec}
    {s : MapState} {keys : List Key} {t : TreeData}
    (h : tree_data a to_latlon utm s keys = some t) :
    t.UTM_X = utm.x + a.cellsize * (keys.map (fun k => (k.1 : ℚ))).sum / (keys.length : ℚ) ∧
    t.UTM_Y = utm.y + a.cellsize * (keys.map (fun k => (k.2 : ℚ))).sum / (keys.length : ℚ) ∧
    t.area = (keys.length : ℚ) * a.cellsize ^ 2 := by
  unfold tree_data at h
  by_cases hk : keys.length = 0
  · rw [if_pos hk] at h
    exact absurd h (by simp)
  · rw [if_neg hk] at h
    cases hg : keys.mapM (fun k => dGet s.ground k) with
    | none => rw [hg] at h; exact absurd h (by simp)
    | some grounds =>
        rw [hg] at h
        obtain ⟨-, -, e3, e4, -, e6, -⟩ := tree_data_fold_fields keys _ t h
        exact ⟨e3, e4, e6⟩

/-- C1: the UTM position `tree_data` reports is the file's UTM offset
plus `cellsize` times the mean of the tree's cell indices, easting from
the x offset and x indices, northing from the y offset and y indices. -/
theorem c1_tree_utm_position (a : Args)
    (to_latlon : ℚ → ℚ → Int → Bool → ℚ × ℚ) (utm : UTMCoordRec)
    (s : MapState) (keys : List Key) (t : TreeData)
    (h : tree_data a to_latlon utm s keys = some t) :
    t.UTM_X = utm.x +
      a.cellsize * ((keys.map (fun k => (k.1 : ℚ))).sum / (keys.length : ℚ)) ∧
    t.UTM_Y = utm.y +
      a.cellsize * ((keys.map (fun k => (k.2 : ℚ))).sum / (keys.length : ℚ)) := by
  obtain ⟨e1, e2, -⟩ := tree_data_init_fields h
  rw [e1, e2, mul_div_assoc, mul_div_assoc]
  exact ⟨rfl, rfl⟩

theorem c1_witness :
    (tree_data argsUnit toLatLonStub utmEx sC8 [(0,0),(1,0)] = some tC8) ∧
    tC8.UTM_X = utmEx.x +
      argsUnit.cellsize *
        ((([(0,0),(1,0)] : List Key).map (fun k => (k.1 : ℚ))).sum / 2) ∧
    tC8.UTM_Y = utmEx.y +
      argsUnit.cellsize *
        ((([(0,0),(1,0)] : List Key).map (fun k => (k.2 : ℚ))).sum / 2) :=
  ⟨by with_unfolding_all decide,
   (c1_tree_utm_position argsUnit toLatLonStub utmEx sC8 [(0,0),(1,0)] tC8
      (by with_unfolding_all decide)).1,
   (c1_tree_utm_position argsUnit toLatLonStub utmEx sC8 [(0,0),(1,0)] tC8
      (by with_unfolding_all decide)).2⟩

theorem all_trees_mem {a : Args} {to_latlon : ℚ → ℚ → Int → Bool → ℚ × ℚ}
    {utm : UTMCoordRec} {s : MapState} {trees : List (Key × Nat)} :
    ∀ (ids : List Nat) (acc out : List TreeData),
      ids.foldlM
        (fun acc v =>
          (tree_data a to_latlon utm s (tree_group trees v)).map
            (fun data =>
              if data.height > 3 / 2 * a.slicedepth then acc ++ [data]
              else acc)) acc = some out →
      ∀ t ∈ out, t ∈ acc ∨
        ∃ v, tree_data a to_latlon utm s (tree_group trees v) = some t := by
  intro ids
  induction ids with
  | nil =>
      intro acc out h t ht
      injection h with h
      subst h
      exact Or.inl ht
  | cons v rest ih =>
      intro acc out h t ht
      simp only [List.foldlM_cons] at h
      cases h1 : tree_data a to_latlon utm s (tree_group trees v) with
      | none => rw [h1] at h; exact absurd h (by simp)
      | some data =>
          rw [h1] at h
          rcases ih _ out h t ht with hacc | hex
          · dsimp only at hacc
            split at hacc
            · rcases List.mem_append.mp hacc with h2 | h2
              · exact Or.inl h2
              · rcases List.mem_singleton.mp h2 with rfl
                exact Or.inr ⟨v, h1⟩
            · exact Or.inl hacc
          · exact Or.inr hex

/-- C9: every record `all_trees` yields comes from `tree_data` on the
tree's group of fine cells, and its `area` field is exactly the number of
those cells times `cellsize²`. -/
theorem c9_all_trees_area (a : Args)
    (to_latlon : ℚ → ℚ → Int → Bool → ℚ × ℚ) (utm : UTMCoordRec)
    (s : MapState) (trees : List (Key × Nat)) (ts : List TreeData)
    (h : all_trees a to_latlon utm s trees = some ts) :
    ∀ t ∈ ts, ∃ v : Nat,
      tree_data a to_latlon utm s (tree_group trees v) = some t ∧
      t.area = ((tree_group trees v).length : ℚ) * a.cellsize ^ 2 := by
  intro t ht
  unfold all_trees at h
  rcases all_trees_mem _ [] ts h t ht with h0 | ⟨v, hv⟩
  · exact absurd h0 (List.not_mem_nil t)
  · exact ⟨v, hv, (tree_data_init_fields hv).2.2⟩

theorem c9_witness :
    (all_trees argsUnit toLatLonStub utmEx sC8 treesC9 = some [tC8]) ∧
    (tC8 ∈ [tC8]) ∧
    ∃ v : Nat,
      tree_data argsUnit toLatLonStub utmEx sC8 (tree_group treesC9 v) =
        some tC8 ∧
      tC8.area = ((tree_group treesC9 v).length : ℚ) * argsUnit.cellsize ^ 2 :=
  ⟨by with_unfolding_all decide, List.mem_singleton_self tC8,
   c9_all_trees_area argsUnit toLatLonStub utmEx sC8 treesC9 [tC8]
     (by with_unfolding_all decide) tC8 (List.mem_singleton_self tC8)⟩

/-- C8 counterexample: on the two-cell tree of `sC8` the code reports
`red = 9/3 = 3`, the ratio of the *last* cell only, while the claimed
per-cell mean is `(4/2 + 9/3)/2 = 5/2`. -/
theorem c8_counterexample :
    tree_data argsUnit toLatLonStub utmEx sC8 [(0,0),(1,0)] = some tC8 ∧
    dGet tC8.colours ("red") = some 3 ∧
    claimed_mean_colour sC8 [(0,0),(1,0)] "red" = 5/2 ∧
    (3 : ℚ) ≠ 5/2 :=
  ⟨by with_unfolding_all decide, by with_unfolding_all decide,
   by with_unfolding_all decide, by with_unfolding_all decide⟩

theorem dGet_eq_none_of_not_mem {κ α : Type} [DecidableEq κ]
    (d : List (κ × α)) (k : κ) (h : k ∉ d.map (·.1)) : dGet d k = none := by
  induction d with
  | nil => rfl
  | cons p rest ih =>
      obtain ⟨k', v'⟩ := p
      simp only [List.map_cons, List.mem_cons] at h
      push_neg at h
      simp only [dGet]
      rw [if_neg (fun he => h.1 he.symm), ih h.2]

theorem findSome?_append {α β : Type} (l1 l2 : List α) (f : α → Option β) :
    (l1 ++ l2).findSome? f = (l1.findSome? f).or (l2.findSome? f) := by
  induction l1 with
  | nil => simp [List.findSome?]
  | cons a l ih => cases hfa : f a <;> simp [List.findSome?_cons, hfa, ih]

theorem dGet_foldl_dSet_div (fd : ℕ) (c : String) :
    ∀ (cols oc0 : List (String × ℚ)), (cols.map (·.1)).Nodup →
      dGet (cols.foldl (fun oc ct => dSet oc ct.1 (ct.2 / (fd : ℚ))) oc0) c =
        ((dGet cols c).map (fun t => t / (fd : ℚ))).or (dGet oc0 c) := by
  intro cols
  induction cols with
  | nil => intro oc0 _; simp [dGet]
  | cons ct rest ih =>
      obtain ⟨name, tot⟩ := ct
      intro oc0 hnd
      simp only [List.map_cons, List.nodup_cons] at hnd
      simp only [List.foldl_cons]
      rw [ih _ hnd.2]
      by_cases hc : name = c
      · subst hc
        have hcons : dGet ((name, tot) :: rest) name = some tot := by
          simp [dGet]
        rw [dGet_eq_none_of_not_mem rest name hnd.1, dGet_dSet_self, hcons]
        simp
      · have hcons : dGet ((name, tot) :: rest) c = dGet rest c := by
          simp [dGet, hc]
        rw [hcons, dGet_dSet_ne _ _ (fun he => hc he.symm)]

theorem tree_data_step_colours {s : MapState} {out out' : TreeData} {k : Key}
    (hnd : colours_nodup_at s k = true)
    (h : tree_data_step s out k = some out') (c : String) :
    dGet out'.colours c = (cell_colour_ratio s k c).or (dGet out.colours c) := by
  unfold tree_data_step at h
  cases h1 : dGet s.canopy k <;> rw [h1] at h <;> try exact Option.noConfusion h
  cases h2 : dGet s.ground k <;> rw [h2] at h <;> try exact Option.noConfusion h
  cases h3 : dGet s.density k <;> rw [h3] at h <;> try exact Option.noConfusion h
  cases h4 : dGet s.colours k <;> rw [h4] at h <;> try exact Option.noConfusion h
  cases h5 : dGet s.filtered_density k <;> rw [h5] at h <;>
    try exact Option.noConfusion h
  injection h with h
  subst h
  unfold colours_nodup_at at hnd
  rw [h4] at hnd
  unfold cell_colour_ratio
  rw [h4, h5]
  exact dGet_foldl_dSet_div _ c _ out.colours (of_decide_eq_true hnd)

theorem tree_data_fold_colours {s : MapState} (c : String) :
    ∀ (keys : List Key) (init out : TreeData),
      (∀ k ∈ keys, colours_nodup_at s k = true) →
      keys.foldlM (tree_data_step s) init = some out →
      dGet out.colours c =
        (last_cell_colour s keys c).or (dGet init.colours c) := by
  intro keys
  induction keys with
  | nil =>
      intro init out _ h
      injection h with h
      subst h
      simp [last_cell_colour, List.findSome?]
  | cons k rest ih =>
      intro init out hnd h
      simp only [List.foldlM_cons] at h
      cases h1 : tree_data_step s init k with
      | none => rw [h1] at h; exact Option.noConfusion h
      | some mid =>
          rw [h1] at h
          rw [ih mid out (fun k hk => hnd k (List.mem_cons_of_mem _ hk)) h]
          rw [tree_data_step_colours (hnd k (List.mem_cons_self k rest)) h1 c]
          rw [← Option.or_assoc]
          congr 1
          unfold last_cell_colour
          rw [List.reverse_cons, findSome?_append]
          simp [List.findSome?]
          cases cell_colour_ratio s k c <;> simp

/-- C8 (amended): the per-channel colour `tree_data` reports is not a
mean: it is the `channel_sum / filtered_density` ratio of the last cell
(in key order) carrying the channel, each cell's assignment overwriting
the previous one; a channel no cell carries is absent.  (Each cell's
colour dict is assumed to map distinct channel names, as Python dicts
guarantee.) -/
theorem c8_last_cell_colour (a : Args)
    (to_latlon : ℚ → ℚ → Int → Bool → ℚ × ℚ) (utm : UTMCoordRec)
    (s : MapState) (keys : List Key) (t : TreeData) (c : String)
    (hnd : ∀ k ∈ keys, colours_nodup_at s k = true)
    (h : tree_data a to_latlon utm s keys = some t) :
    dGet t.colours c = last_cell_colour s keys c := by
  unfold tree_data at h
  by_cases hk : keys.length = 0
  · rw [if_pos hk] at h
    exact absurd h (by simp)
  · rw [if_neg hk] at h
    cases hg : keys.mapM (fun k => dGet s.ground k) with
    | none => rw [hg] at h; exact absurd h (by simp)
    | some grounds =>
        rw [hg] at h
        rw [tree_data_fold_colours c keys _ t hnd h]
        simp [dGet]

theorem c8_witness :
    (∀ k ∈ ([(0,0),(1,0)] : List Key), colours_nodup_at sC8 k = true) ∧
    (tree_data argsUnit toLatLonStub utmEx sC8 [(0,0),(1,0)] = some tC8) ∧
    dGet tC8.colours ("red") = last_cell_colour sC8 [(0,0),(1,0)] "red" :=
  ⟨by with_unfolding_all decide, by with_unfolding_all decide,
   c8_last_cell_colour argsUnit toLatLonStub utmEx sC8 [(0,0),(1,0)] tC8 ("red")
     (by with_unfolding_all decide) (by with_unfolding_all decide)⟩

theorem detect_issues_eq_filter {a : Args} {ground : List (Key × ℚ)} :
    ∀ (prior acc res : List Key),
      prior.foldlM
        (fun acc k =>
          (problematic_flag a ground k).map
            (fun b => if b then acc ++ [k] else acc)) acc = some res →
      res = acc ++
        prior.filter (fun k => problematic_flag a ground k = some true) := by
  intro prior
  induction prior with
  | nil =>
      intro acc res h
      injection h with h
      subst h
      simp
  | cons k rest ih =>
      intro acc res h
      simp only [List.foldlM_cons] at h
      cases hf : problematic_flag a ground k with
      | none => rw [hf] at h; exact Option.noConfusion h
      | some b =>
          rw [hf] at h
          have hres := ih _ res h
          cases b with
          | true => rw [hres]; simp [List.filter_cons, hf, List.append_assoc]
          | false => rw [hres]; simp [List.filter_cons, hf]

/-- C6 (amended): `detect_issues` flags exactly the candidates with at
least 6 *distinct ground values* among their populated neighbours of
which at least 3 differ from the cell's own ground by more than
`2 * cellsize` — the counts are over the set of neighbour values, not
over the neighbours themselves. -/
theorem c6_distinct_value_test (a : Args) (ground : List (Key × ℚ))
    (prior : List Key) (k : Key) (res : List Key) (h0 : ℚ)
    (hres : detect_issues a ground prior = some res)
    (hk : dGet ground k = some h0) :
    k ∈ res ↔ k ∈ prior ∧
      6 ≤ (neighbor_ground_values ground k).card ∧
      3 ≤ ((neighbor_ground_values ground k).filter
            (fun n => |h0 - n| > 2 * a.cellsize)).card := by
  unfold detect_issues at hres
  rw [detect_issues_eq_filter prior [] res hres, List.nil_append,
    List.mem_filter]
  apply and_congr_right
  intro _
  unfold problematic_flag
  have hcard : (neighbor_ground_values ground k).card =
      ((neighbors k).filterMap (fun n => dGet ground n)).dedup.length :=
    List.card_toFinset _
  by_cases hlen :
      ((neighbors k).filterMap (fun n => dGet ground n)).dedup.length < 6
  · rw [if_pos hlen]
    simp only [decide_eq_true_eq]
    constructor
    · intro hfalse
      exact absurd hfalse (by simp)
    · intro ⟨h6, _⟩
      rw [hcard] at h6
      omega
  · rw [if_neg hlen, hk]
    simp only [Option.map_some', Option.some.injEq, decide_eq_true_eq]
    have hnodup :
        (((neighbors k).filterMap (fun n => dGet ground n)).dedup.filter
          (fun n => decide (|h0 - n| > 2 * a.cellsize))).Nodup :=
      (List.nodup_dedup _).filter _
    have hdf : ((neighbors k).filterMap (fun n => dGet ground n)).dedup.toFinset
        = ((neighbors k).filterMap (fun n => dGet ground n)).toFinset := by
      ext x
      simp
    have hfin : ((neighbor_ground_values ground k).filter
          (fun n => |h0 - n| > 2 * a.cellsize)).card =
        (((neighbors k).filterMap (fun n => dGet ground n)).dedup.filter
          (fun n => decide (|h0 - n| > 2 * a.cellsize))).length := by
      rw [← List.toFinset_card_of_nodup hnodup]
      congr 1
      rw [List.toFinset_filter, hdf]
      unfold neighbor_ground_values
      exact Finset.filter_congr (fun x _ => by simp)
    rw [hfin]
    constructor
    · intro h3
      exact ⟨by rw [hcard]; omega, h3⟩
    · exact fun h => h.2

theorem c6_distinct_value_test_witness :
    (detect_issues argsUnit gW7 [(0,0)] = some [(0,0)]) ∧
    (dGet gW7 (0,0) = some 100) ∧
    (((0,0) : Key) ∈ ([(0,0)] : List Key) ↔
      ((0,0) : Key) ∈ ([(0,0)] : List Key) ∧
      6 ≤ (neighbor_ground_values gW7 (0,0)).card ∧
      3 ≤ ((neighbor_ground_values gW7 (0,0)).filter
            (fun n => |(100 : ℚ) - n| > 2 * argsUnit.cellsize)).card) :=
  ⟨by with_unfolding_all decide, by with_unfolding_all decide,
   c6_distinct_value_test argsUnit gW7 [(0,0)] (0,0) [(0,0)] 100
     (by with_unfolding_all decide) (by with_unfolding_all decide)⟩

/-- C7 (amended): each smoothing pass is restricted to the cells found
problematic in the prior pass; the loop stops early — returning the
ground map updated by the pass just run — as soon as the recomputed
problematic set is larger than 9/10 of the previous one; when the
problematic set at the start of a pass is empty, the shrink-ratio
computation `len(problematic) / prev` divides by zero and the smoothing
raises `ZeroDivisionError` (`none`) instead of returning; `smooth_ground`
runs the loop with a 10-pass cap. -/
theorem c7_smooth_behaviour (a : Args) (g : List (Key × ℚ))
    (probs probs' : List Key) (fuel : Nat) :
    (probs = [] → smooth_ground_loop a g probs (fuel + 1) = none) ∧
    (probs ≠ [] →
      detect_issues a (smooth_pass a probs g) probs = some probs' →
      (9 : ℚ) / 10 < (probs'.length : ℚ) / (probs.length : ℚ) →
      smooth_ground_loop a g probs (fuel + 1) =
        some (smooth_pass a probs g)) ∧
    smooth_ground a g =
      (match detect_issues a g (g.map (·.1)) with
       | none => none
       | some probs0 => smooth_ground_loop a g probs0 10) := by
  refine ⟨?_, ?_, rfl⟩
  · intro hnil
    subst hnil
    rfl
  · intro hne hdet hshrink
    unfold smooth_ground_loop
    dsimp only
    rw [hdet]
    dsimp only
    rw [if_neg (fun h0 => hne (List.length_eq_zero.mp h0)), if_pos hshrink]

theorem c7_smooth_behaviour_witness :
    (([((0,0) : Key)] : List Key) ≠ []) ∧
    (detect_issues argsUnit (smooth_pass argsUnit [(0,0)] gW7) [(0,0)] =
      some [(0,0)]) ∧
    ((9 : ℚ) / 10 <
      ((([((0,0) : Key)] : List Key).length : ℚ) /
        (([((0,0) : Key)] : List Key).length : ℚ))) ∧
    smooth_ground_loop argsUnit gW7 [(0,0)] 1 =
      some (smooth_pass argsUnit [(0,0)] gW7) :=
  ⟨by decide, by with_unfolding_all decide, by with_unfolding_all decide,
   (c7_smooth_behaviour argsUnit gW7 [(0,0)] [(0,0)] 0).2.1
     (by decide) (by with_unfolding_all decide)
     (by with_unfolding_all decide)⟩

theorem pack_fffBBB_eq {packF32 : ℚ → List Nat} {p : CloudPt} {r : List Nat}
    (h : pack_fffBBB packF32 p = some r) :
    r = packF32 p.x ++ (packF32 p.y ++ (packF32 p.z ++
      [p.red, p.green, p.blue])) := by
  unfold pack_fffBBB packB at h
  repeat' split at h
  all_goals simp only [Option.some_bind, Option.map_some', Option.none_bind]
      at h
  all_goals try exact Option.noConfusion h
  injection h with h
  subst h
  simp [List.append_assoc]

theorem record_size_writer : record_size writer_properties = 15 := rfl

theorem decode_record_writer (uF32 uF64 : List Nat → ℚ)
    (px py pz : List Nat) (hx : px.length = 4) (hy : py.length = 4)
    (hz : pz.length = 4) (r g b : Nat) :
    decode_record uF32 uF64 false writer_properties
        (px ++ (py ++ (pz ++ [r, g, b]))) =
      [uF32 px, uF32 py, uF32 pz, (r : ℚ), (g : ℚ), (b : ℚ)] := by
  simp only [writer_properties, decode_record, typeSize]
  rw [List.take_left' hx, List.drop_left' hx,
    List.take_left' hy, List.drop_left' hy,
    List.take_left' hz, List.drop_left' hz]
  simp [decodeVal, leValue]

theorem writer_fold_eq (packF32 : ℚ → List Nat) :
    ∀ (pts : List CloudPt) (w0 w : IncrementalWriter),
      pts.foldlM (fun w p => writer_call packF32 w p) w0 = some w →
      ∃ recs, pack_points packF32 pts = some recs ∧
        w.count = w0.count + pts.length ∧
        w.temp_storage = w0.temp_storage ++ recs.flatten := by
  intro pts
  induction pts with
  | nil =>
      intro w0 w h
      injection h with h
      subst h
      exact ⟨[], rfl, by simp, by simp⟩
  | cons p rest ih =>
      intro w0 w h
      simp only [List.foldlM_cons] at h
      cases h1 : writer_call packF32 w0 p with
      | none => rw [h1] at h; exact Option.noConfusion h
      | some w1 =>
          rw [h1] at h
          obtain ⟨recs, hrecs, hcount, hstore⟩ := ih w1 w h
          unfold writer_call at h1
          cases h2 : pack_fffBBB packF32 p with
          | none => rw [h2] at h1; exact Option.noConfusion h1
          | some r =>
              rw [h2] at h1
              injection h1 with h1
              subst h1
              refine ⟨r :: recs, ?_, ?_, ?_⟩
              · unfold pack_points
                rw [h2, hrecs]
                rfl
              · rw [hcount]
                dsimp only
                simp [List.length_cons]
                omega
              · rw [hstore]
                simp [List.append_assoc]

theorem read_records_flatten (uF32 uF64 : List Nat → ℚ)
    (packF32 : ℚ → List Nat) (hlen : ∀ q, (packF32 q).length = 4) :
    ∀ (pts : List CloudPt) (recs : List (List Nat)),
      pack_points packF32 pts = some recs →
      read_records uF32 uF64 false writer_properties pts.length recs.flatten =
        some (pts.map (fun p =>
          [uF32 (packF32 p.x), uF32 (packF32 p.y), uF32 (packF32 p.z),
           (p.red : ℚ), (p.green : ℚ), (p.blue : ℚ)])) := by
  intro pts
  induction pts with
  | nil =>
      intro recs h
      injection h with h
      subst h
      rfl
  | cons p rest ih =>
      intro recs h
      unfold pack_points at h
      cases h1 : pack_fffBBB packF32 p with
      | none => rw [h1] at h; exact Option.noConfusion h
      | some r =>
          rw [h1] at h
          cases h2 : pack_points packF32 rest with
          | none => rw [h2] at h; exact Option.noConfusion h
          | some rs =>
              rw [h2] at h
              injection h with h
              subst h
              have hr := pack_fffBBB_eq h1
              have hrlen : r.length = 15 := by
                rw [hr]; simp [hlen]
              simp only [List.flatten_cons, List.length_cons, read_records,
                record_size_writer]
              have hble : 15 ≤ (r ++ rs.flatten).length := by
                rw [List.length_append, hrlen]; omega
              rw [if_pos hble]
              rw [List.take_left' hrlen, List.drop_left' hrlen]
              rw [ih rs h2]
              rw [hr, decode_record_writer uF32 uF64 _ _ _ (hlen _) (hlen _)
                (hlen _)]
              rfl

theorem parse_writer_header (w : IncrementalWriter) :
    parse_ply_header (writer_finalize w).header =
      some (w.count, writer_properties) := by
  rfl

/-- C3: reading back a file produced by `write` yields one record per
written point, in order, whose `x`, `y`, `z` values are the originals
passed through the 32-bit float encode/decode pair (the `struct` `f`
codec, abstracted as `packF32`/`uF32`), and whose `red`, `green`, `blue`
values are byte-exact. -/
theorem c3_write_read_roundtrip (packF32 : ℚ → List Nat)
    (uF32 uF64 : List Nat → ℚ) (hlen : ∀ q, (packF32 q).length = 4)
    (pts : List CloudPt) (f : PlyFile) (hw : write packF32 pts = some f) :
    read_ply uF32 uF64 f = some (pts.map (fun p =>
      [uF32 (packF32 p.x), uF32 (packF32 p.y), uF32 (packF32 p.z),
       (p.red : ℚ), (p.green : ℚ), (p.blue : ℚ)])) := by
  unfold write at hw
  cases hfold : pts.foldlM (fun w p => writer_call packF32 w p)
      IncrementalWriter.new with
  | none => rw [hfold] at hw; exact Option.noConfusion hw
  | some w =>
      rw [hfold] at hw
      injection hw with hw
      subst hw
      obtain ⟨recs, hrecs, hcount, hstore⟩ := writer_fold_eq packF32 pts _ w hfold
      unfold read_ply
      rw [parse_writer_header]
      show read_records uF32 uF64 _ writer_properties w.count w.temp_storage
        = _
      rw [hcount, hstore]
      show read_records uF32 uF64 false writer_properties
        (IncrementalWriter.new.count + pts.length)
        (IncrementalWriter.new.temp_storage ++ recs.flatten) = _
      simp only [IncrementalWriter.new, Nat.zero_add, List.nil_append]
      exact read_records_flatten uF32 uF64 packF32 hlen pts recs hrecs

theorem c3_witness :
    (∀ q, (packF32Stub q).length = 4) ∧
    (write packF32Stub ptsC3 = some fileC3) ∧
    read_ply unpackF32Stub unpackF32Stub fileC3 =
      some (ptsC3.map (fun p =>
        [unpackF32Stub (packF32Stub p.x), unpackF32Stub (packF32Stub p.y),
         unpackF32Stub (packF32Stub p.z),
         (p.red : ℚ), (p.green : ℚ), (p.blue : ℚ)])) :=
  ⟨fun _ => rfl, by with_unfolding_all decide,
   c3_write_read_roundtrip packF32Stub unpackF32Stub unpackF32Stub
     (fun _ => rfl) ptsC3 fileC3 (by with_unfolding_all decide)⟩

theorem dGet_mem {κ α : Type} [DecidableEq κ] {d : List (κ × α)} {k : κ}
    {v : α} (h : dGet d k = some v) : (k, v) ∈ d := by
  induction d with
  | nil => exact Option.noConfusion h
  | cons p rest ih =>
      obtain ⟨k', v'⟩ := p
      simp only [dGet] at h
      by_cases hk : k' = k
      · rw [if_pos hk] at h
        injection h with h
        subst h
        subst hk
        exact List.mem_cons_self _ _
      · rw [if_neg hk] at h
        exact List.mem_cons_of_mem _ (ih h)

theorem mem_dSet {κ α : Type} [DecidableEq κ] {d : List (κ × α)} {k : κ}
    {v : α} {kv : κ × α} (h : kv ∈ dSet d k v) : kv ∈ d ∨ kv = (k, v) := by
  induction d with
  | nil =>
      simp only [dSet] at h
      exact Or.inr (List.mem_singleton.mp h)
  | cons p rest ih =>
      obtain ⟨k', v'⟩ := p
      simp only [dSet] at h
      by_cases hk : k' = k
      · rw [if_pos hk] at h
        rcases List.mem_cons.mp h with h1 | h1
        · exact Or.inr h1
        · exact Or.inl (List.mem_cons_of_mem _ h1)
      · rw [if_neg hk] at h
        rcases List.mem_cons.mp h with h1 | h1
        · exact Or.inl (by rw [h1]; exact List.mem_cons_self _ _)
        · rcases ih h1 with h2 | h2
          · exact Or.inl (List.mem_cons_of_mem _ h2)
          · exact Or.inr h2

theorem dGet_dSet_isSome {κ α : Type} [DecidableEq κ] (d : List (κ × α))
    (k k0 : κ) (v : α) (h : (dGet d k0).isSome) :
    (dGet (dSet d k v) k0).isSome := by
  by_cases hk : k0 = k
  · subst hk
    rw [dGet_dSet_self]
    rfl
  · rw [dGet_dSet_ne _ _ hk]
    exact h

theorem init_labels_bound (record : List (Key × List Key)) :
    ∀ kv ∈ init_labels record, kv.2 < record.length := by
  intro kv hkv
  unfold init_labels at hkv
  rcases List.mem_map.mp hkv with ⟨p, hp, rfl⟩
  have h1 := List.mem_map_of_mem Prod.fst hp
  rw [List.enum_map_fst] at h1
  simpa using List.mem_range.mp h1

theorem expandGo_bound_aux (C : Nat) (fuel : Nat)
    (hexp : ∀ old com, (∀ kv ∈ com, kv.2 < C) →
      ∀ kv ∈ (expand fuel old com).1, kv.2 < C) :
    ∀ (ns : List Key) (old : Key) (com : List (Key × Nat)),
      (∀ kv ∈ com, kv.2 < C) →
      ∀ kv ∈ (expandGo fuel old ns com).1, kv.2 < C := by
  intro ns
  induction ns with
  | nil =>
      intro old com hcom kv hkv
      rw [expandGo] at hkv
      exact hcom kv hkv
  | cons n rest ih =>
      intro old com hcom kv hkv
      rw [expandGo] at hkv
      cases h1 : dGet com n with
      | none =>
          rw [h1] at hkv
          exact hcom kv hkv
      | some cn =>
          simp only [h1] at hkv
          cases h2 : dGet com old with
          | none =>
              simp only [h2] at hkv
              exact hcom kv hkv
          | some co =>
              simp only [h2] at hkv
              by_cases hco : cn = co
              · rw [if_pos hco] at hkv
                exact ih old com hcom kv hkv
              · rw [if_neg hco] at hkv
                by_cases hlt : cn < co
                · rw [if_pos hlt] at hkv
                  refine ih old _ ?_ kv hkv
                  intro kv' hkv'
                  rcases mem_dSet hkv' with h3 | h3
                  · exact hcom kv' h3
                  · rw [h3]
                    exact hcom (n, cn) (dGet_mem h1)
                · rw [if_neg hlt] at hkv
                  have hcom' : ∀ kv' ∈ dSet com n co, kv'.2 < C := by
                    intro kv' hkv'
                    rcases mem_dSet hkv' with h3 | h3
                    · exact hcom kv' h3
                    · rw [h3]
                      exact hcom (old, co) (dGet_mem h2)
                  have hE := hexp n (dSet com n co) hcom'
                  cases hmk : expand fuel n (dSet com n co) with
                  | mk com' flag =>
                      rw [hmk] at hkv hE
                      cases flag with
                      | true => exact ih old com' hE kv hkv
                      | false => exact hE kv hkv

theorem expand_bound (C : Nat) :
    ∀ fuel old com, (∀ kv ∈ com, kv.2 < C) →
      ∀ kv ∈ (expand fuel old com).1, kv.2 < C := by
  intro fuel
  induction fuel with
  | zero =>
      intro old com hcom kv hkv
      rw [expand] at hkv
      exact hcom kv hkv
  | succ fuel ih =>
      intro old com hcom kv hkv
      rw [expand] at hkv
      exact expandGo_bound_aux C fuel ih _ old com hcom kv hkv

theorem connected_components_bound (C : Nat) (fuel : Nat) :
    ∀ (keys : List Key) (com : List (Key × Nat)),
      (∀ kv ∈ com, kv.2 < C) →
      ∀ kv ∈ keys.foldl (fun c k => (expand fuel k c).1) com, kv.2 < C := by
  intro keys
  induction keys with
  | nil => intro com hcom; exact hcom
  | cons k rest ih =>
      intro com hcom
      simp only [List.foldl_cons]
      exact ih _ (expand_bound C fuel k com hcom)

theorem backproj_inner_bound (C : Nat) (label : Nat) (hl : label < C) :
    ∀ (fines : List Key) (ret : List (Key × Nat)),
      (∀ kv ∈ ret, kv.2 < C) →
      ∀ kv ∈ fines.foldl (fun r sk => dSet r sk label) ret, kv.2 < C := by
  intro fines
  induction fines with
  | nil => intro ret hret; exact hret
  | cons fk rest ih =>
      intro ret hret
      simp only [List.foldl_cons]
      refine ih _ ?_
      intro kv hkv
      rcases mem_dSet hkv with h1 | h1
      · exact hret kv h1
      · rw [h1]; exact hl

theorem backproj_inner_isSome (label : Nat) :
    ∀ (fines : List Key) (ret : List (Key × Nat)) (k0 : Key),
      (dGet ret k0).isSome →
      (dGet (fines.foldl (fun r sk => dSet r sk label) ret) k0).isSome := by
  intro fines
  induction fines with
  | nil => intro ret k0 h; exact h
  | cons fk rest ih =>
      intro ret k0 h
      simp only [List.foldl_cons]
      exact ih _ k0 (dGet_dSet_isSome ret fk k0 label h)

theorem backproj_inner_sets (label : Nat) :
    ∀ (fines : List Key) (ret : List (Key × Nat)) (fk : Key), fk ∈ fines →
      (dGet (fines.foldl (fun r sk => dSet r sk label) ret) fk).isSome := by
  intro fines
  induction fines with
  | nil => intro ret fk h; exact absurd h (List.not_mem_nil fk)
  | cons f0 rest ih =>
      intro ret fk h
      simp only [List.foldl_cons]
      rcases List.mem_cons.mp h with h1 | h1
      · subst h1
        refine backproj_inner_isSome label rest _ fk ?_
        rw [dGet_dSet_self]
        rfl
      · exact ih _ fk h1

theorem backproj_fold (C : Nat) (com : List (Key × Nat))
    (hcom : ∀ kv ∈ com, kv.2 < C) :
    ∀ (rec : List (Key × List Key)) (ret m : List (Key × Nat)),
      rec.foldlM
        (fun ret kv =>
          (dGet com kv.1).map
            (fun label => kv.2.foldl (fun r sk => dSet r sk label) ret))
        ret = some m →
      ((∀ kv ∈ ret, kv.2 < C) → ∀ kv ∈ m, kv.2 < C) ∧
      (∀ k0, (dGet ret k0).isSome → (dGet m k0).isSome) ∧
      (∀ ckv ∈ rec, ∀ fk ∈ ckv.2, (dGet m fk).isSome) := by
  intro rec
  induction rec with
  | nil =>
      intro ret m h
      injection h with h
      subst h
      exact ⟨fun h => h, fun _ h => h,
        fun ckv hckv => absurd hckv (List.not_mem_nil ckv)⟩
  | cons ckv0 rest ih =>
      intro ret m h
      simp only [List.foldlM_cons] at h
      cases h1 : dGet com ckv0.1 with
      | none => rw [h1] at h; exact Option.noConfusion h
      | some label =>
          rw [h1] at h
          obtain ⟨hb, hmono, hsets⟩ := ih _ m h
          have hl : label < C := hcom _ (dGet_mem h1)
          refine ⟨?_, ?_, ?_⟩
          · intro hret
            exact hb (backproj_inner_bound C label hl ckv0.2 ret hret)
          · intro k0 hk0
            exact hmono k0 (backproj_inner_isSome label ckv0.2 ret k0 hk0)
          · intro ckv hckv fk hfk
            rcases List.mem_cons.mp hckv with h2 | h2
            · subst h2
              exact hmono fk (backproj_inner_sets label ckv.2 ret fk hfk)
            · exact hsets ckv h2 fk hfk

theorem dGet_foldl_dSet_of_not_mem (label : Nat) :
    ∀ (fines : List Key) (ret : List (Key × Nat)) (fk : Key), fk ∉ fines →
      dGet (fines.foldl (fun r sk => dSet r sk label) ret) fk =
        dGet ret fk := by
  intro fines
  induction fines with
  | nil => intro ret fk _; rfl
  | cons f0 rest ih =>
      intro ret fk h
      simp only [List.mem_cons] at h
      push_neg at h
      simp only [List.foldl_cons]
      rw [ih _ fk h.2, dGet_dSet_ne _ _ h.1]

theorem dGet_foldl_dSet_of_mem (label : Nat) :
    ∀ (fines : List Key) (ret : List (Key × Nat)) (fk : Key), fk ∈ fines →
      dGet (fines.foldl (fun r sk => dSet r sk label) ret) fk =
        some label := by
  intro fines
  induction fines with
  | nil => intro ret fk h; exact absurd h (List.not_mem_nil fk)
  | cons f0 rest ih =>
      intro ret fk h
      simp only [List.foldl_cons]
      by_cases h1 : fk ∈ rest
      · exact ih _ fk h1
      · rcases List.mem_cons.mp h with h2 | h2
        · subst h2
          rw [dGet_foldl_dSet_of_not_mem label rest _ fk h1, dGet_dSet_self]
        · exact absurd h2 h1

theorem key_scale_record_fold_coherent {a : Args} {s : MapState} :
    ∀ (ds : List (Key × Nat)) (acc record : List (Key × List Key)),
      (∀ ckv ∈ acc, ∀ fk ∈ ckv.2, coarse_key a fk = ckv.1) →
      ds.foldlM
        (fun rec kv =>
          match dGet s.canopy kv.1, dGet s.ground kv.1 with
          | some c, some g =>
              if c - g > a.slicedepth then
                match dGet rec (coarse_key a kv.1) with
                | none => some (rec ++ [(coarse_key a kv.1, [kv.1])])
                | some v => some (dSet rec (coarse_key a kv.1) (v ++ [kv.1]))
              else some rec
          | _, _ => none) acc = some record →
      ∀ ckv ∈ record, ∀ fk ∈ ckv.2, coarse_key a fk = ckv.1 := by
  intro ds
  induction ds with
  | nil =>
      intro acc record hacc h
      injection h with h
      subst h
      exact hacc
  | cons kv rest ih =>
      intro acc record hacc h
      simp only [List.foldlM_cons] at h
      cases h1 : dGet s.canopy kv.1 with
      | none => simp only [h1] at h; exact Option.noConfusion h
      | some c =>
          simp only [h1] at h
          cases h2 : dGet s.ground kv.1 with
          | none => simp only [h2] at h; exact Option.noConfusion h
          | some g =>
              simp only [h2] at h
              by_cases h3 : c - g > a.slicedepth
              · rw [if_pos h3] at h
                cases h4 : dGet acc (coarse_key a kv.1) with
                | none =>
                    simp only [h4] at h
                    refine ih _ record ?_ h
                    intro ckv hckv fk hfk
                    rcases List.mem_append.mp hckv with h5 | h5
                    · exact hacc ckv h5 fk hfk
                    · rcases List.mem_singleton.mp h5 with rfl
                      rcases List.mem_singleton.mp hfk with rfl
                      rfl
                | some v =>
                    simp only [h4] at h
                    refine ih _ record ?_ h
                    intro ckv hckv fk hfk
                    rcases mem_dSet hckv with h5 | h5
                    · exact hacc ckv h5 fk hfk
                    · subst h5
                      rcases List.mem_append.mp hfk with h6 | h6
                      · exact hacc _ (dGet_mem h4) fk h6
                      · rcases List.mem_singleton.mp h6 with rfl
                        rfl
              · rw [if_neg h3] at h
                exact ih _ record hacc h

theorem key_scale_record_coherent {a : Args} {s : MapState}
    {record : List (Key × List Key)}
    (hrec : key_scale_record a s = some record) :
    ∀ ckv ∈ record, ∀ fk ∈ ckv.2, coarse_key a fk = ckv.1 := by
  unfold key_scale_record at hrec
  exact key_scale_record_fold_coherent s.density [] record
    (fun ckv h => absurd h (List.not_mem_nil ckv)) hrec

theorem backproj_preserve (com : List (Key × Nat)) :
    ∀ (rec : List (Key × List Key)) (ret m : List (Key × Nat)),
      rec.foldlM
        (fun ret kv =>
          (dGet com kv.1).map
            (fun label => kv.2.foldl (fun r sk => dSet r sk label) ret))
        ret = some m →
      ∀ (fk : Key) (L0 : Nat), dGet ret fk = some L0 →
      (∀ ckv ∈ rec, fk ∈ ckv.2 → dGet com ckv.1 = some L0) →
      dGet m fk = some L0 := by
  intro rec
  induction rec with
  | nil =>
      intro ret m h fk L0 hret _
      injection h with h
      subst h
      exact hret
  | cons g rest ih =>
      intro ret m h fk L0 hret hcond
      simp only [List.foldlM_cons] at h
      cases h1 : dGet com g.1 with
      | none => rw [h1] at h; exact Option.noConfusion h
      | some L =>
          rw [h1] at h
          refine ih _ m h fk L0 ?_
            (fun ckv hckv hfk => hcond ckv (List.mem_cons_of_mem _ hckv) hfk)
          by_cases h2 : fk ∈ g.2
          · have hL0 := hcond g (List.mem_cons_self _ _) h2
            rw [h1] at hL0
            injection hL0 with hL0
            rw [dGet_foldl_dSet_of_mem L g.2 ret fk h2, hL0]
          · rw [dGet_foldl_dSet_of_not_mem L g.2 ret fk h2]
            exact hret

theorem backproj_shared {a : Args} (com : List (Key × Nat)) :
    ∀ (rec : List (Key × List Key)) (ret m : List (Key × Nat)),
      (∀ ckv ∈ rec, ∀ fk ∈ ckv.2, coarse_key a fk = ckv.1) →
      rec.foldlM
        (fun ret kv =>
          (dGet com kv.1).map
            (fun label => kv.2.foldl (fun r sk => dSet r sk label) ret))
        ret = some m →
      ∀ ckv ∈ rec, ∀ fk ∈ ckv.2,
        ∃ label, dGet com ckv.1 = some label ∧ dGet m fk = some label := by
  intro rec
  induction rec with
  | nil =>
      intro ret m _ _ ckv hckv
      exact absurd hckv (List.not_mem_nil ckv)
  | cons g rest ih =>
      intro ret m hcoh h ckv hckv fk hfk
      simp only [List.foldlM_cons] at h
      cases h1 : dGet com g.1 with
      | none => rw [h1] at h; exact Option.noConfusion h
      | some L =>
          rw [h1] at h
          rcases List.mem_cons.mp hckv with h2 | h2
          · subst h2
            refine ⟨L, h1, ?_⟩
            refine backproj_preserve com rest _ m h fk L ?_ ?_
            · exact dGet_foldl_dSet_of_mem L ckv.2 ret fk hfk
            · intro ckv' hckv' hfk'
              have e1 : coarse_key a fk = ckv'.1 :=
                hcoh ckv' (List.mem_cons_of_mem _ hckv') fk hfk'
              have e2 : coarse_key a fk = ckv.1 :=
                hcoh ckv (List.mem_cons_self _ _) fk hfk
              rw [← e1, e2]
              exact h1
          · exact ih _ m
              (fun ckv' h' fk' hfk' =>
                hcoh ckv' (List.mem_cons_of_mem _ h') fk' hfk')
              h ckv h2 fk hfk

/-- C5 (amended): `_tree_components` gives every fine cell of a
qualifying coarse cell an integer label smaller than the number of
qualifying coarse cells, and fine cells of the same coarse cell share a
label; but it performs no compaction: the surviving labels need not form
a dense `0..N-1` range, and (because `expand` returns at its first
missing neighbour) need not be in bijection with the 8-connected
components. -/
theorem c5_labels_bounded_and_total (a : Args) (fuel : Nat) (s : MapState)
    (record : List (Key × List Key)) (m : List (Key × Nat))
    (hrec : key_scale_record a s = some record)
    (h : tree_components a fuel s = some m) :
    (∀ kv ∈ m, kv.2 < record.length) ∧
    (∀ ckv ∈ record, ∀ fk ∈ ckv.2, (dGet m fk).isSome) ∧
    (∀ ckv ∈ record, ∀ fk1 ∈ ckv.2, ∀ fk2 ∈ ckv.2,
      dGet m fk1 = dGet m fk2) := by
  have hcoh := key_scale_record_coherent hrec
  unfold tree_components at h
  rw [hrec] at h
  have hcom : ∀ kv ∈ connected_components fuel (init_labels record),
      kv.2 < record.length := by
    unfold connected_components
    exact connected_components_bound record.length fuel _ _
      (init_labels_bound record)
  obtain ⟨hb, -, ht⟩ := backproj_fold record.length _ hcom record [] m h
  refine ⟨hb (fun kv hkv => absurd hkv (List.not_mem_nil kv)), ht, ?_⟩
  intro ckv hckv fk1 h1 fk2 h2
  obtain ⟨L1, hL1, hm1⟩ :=
    backproj_shared (a := a) _ record [] m hcoh h ckv hckv fk1 h1
  obtain ⟨L2, hL2, hm2⟩ :=
    backproj_shared (a := a) _ record [] m hcoh h ckv hckv fk2 h2
  rw [hL1] at hL2
  injection hL2 with e
  rw [hm1, hm2, e]

set_option maxRecDepth 8000 in
theorem c5_labels_bounded_and_total_witness :
    (key_scale_record argsJoined sC5b = some recordC5b) ∧
    (tree_components argsJoined 1000 sC5b = some mC5b) ∧
    (∀ kv ∈ mC5b, kv.2 < recordC5b.length) ∧
    (∀ ckv ∈ recordC5b, ∀ fk ∈ ckv.2, (dGet mC5b fk).isSome) ∧
    (∀ ckv ∈ recordC5b, ∀ fk1 ∈ ckv.2, ∀ fk2 ∈ ckv.2,
      dGet mC5b fk1 = dGet mC5b fk2) :=
  ⟨by with_unfolding_all decide, by with_unfolding_all decide,
   (c5_labels_bounded_and_total argsJoined 1000 sC5b recordC5b mC5b
      (by with_unfolding_all decide) (by with_unfolding_all decide)).1,
   (c5_labels_bounded_and_total argsJoined 1000 sC5b recordC5b mC5b
      (by with_unfolding_all decide) (by with_unfolding_all decide)).2.1,
   (c5_labels_bounded_and_total argsJoined 1000 sC5b recordC5b mC5b
      (by with_unfolding_all decide) (by with_unfolding_all decide)).2.2⟩
